import Mathlib

/-!
Verification development for the Firestore/DuckDB bridge extension
(`fire_duck_ext`).  The definitions below are a shallow embedding of the
extension's C++ sources:

* `src/firestore_types.cpp`   — value codec and schema-inference helpers
* `src/firestore_index.cpp`   — filter conversion and index matching
* `src/firestore_scanner.cpp` — scan bind, filter-pushdown hook, scan executor
* `src/firestore_writer.cpp`  — batched write planner
* `src/firestore_client.cpp`  — document client (`MakeRequest`, `InferSchema`)

Host-engine primitives (DuckDB's timestamp parser/printer) and external
libraries (OpenSSL base64) are modelled as explicit oracle parameters in the
`Host` structure; everything else is translated statement-by-statement from
the sources.  Machine integers are modelled as `Int`/`Nat` (the quantities
involved — counts, page sizes, indexes — stay far from 2^64, and the sources
perform no wrap-around arithmetic on them); C++ `double` payloads are carried
as `Rat` (no floating-point arithmetic is performed on them by the embedded
code, they are only stored and compared).
-/

namespace FireDuck

/-! ## Wire-level value model (`firestore_types.cpp`)

A Firestore typed value envelope is a JSON object with exactly one variant
key.  `integerValue` may arrive either as a JSON string (the normal wire
form) or as a JSON number (`val.is_string()` is checked by the code), so it
gets two constructors. -/

/-- A Firestore typed value envelope (one constructor per wire variant). -/
inductive FsValue where
  | nullV
  | strV (s : String)
  | intStrV (s : String)
  | intNumV (n : Int)
  | dblV (d : Rat)
  | boolV (b : Bool)
  | tsV (s : String)
  | geoV (lat lng : Rat)
  | arrV (vs : List FsValue)
  | mapV (fs : List (String × FsValue))
  | refV (s : String)
  | bytesV (s : String)
  deriving Repr

/-- Key lookup in a JSON object (`fields.contains(k)` / `fields[k]`). -/
def lookupField (fs : List (String × FsValue)) (k : String) : Option FsValue :=
  (fs.find? (fun p => p.1 = k)).map Prod.snd

/-- `IsFirestoreVector` (firestore_types.cpp:62-82): a `mapValue` whose
`__type__` field is the string `"__vector__"` and whose `value` field is an
`arrayValue`. -/
def isFirestoreVector : FsValue → Bool
  | .mapV fs =>
      match lookupField fs "__type__" with
      | some (.strV t) =>
          if t = "__vector__" then
            match lookupField fs "value" with
            | some (.arrV _) => true
            | _ => false
          else false
      | _ => false
  | _ => false

/-- `GetVectorDimension` (firestore_types.cpp:85-91). -/
def getVectorDimension : FsValue → Nat
  | .mapV fs =>
      match lookupField fs "value" with
      | some (.arrV vs) => vs.length
      | _ => 0
  | _ => 0

/-- `GetFirestoreTypeName` (firestore_types.cpp:97-123).  The source tests
the variant keys in a fixed order with the vector check placed before the
plain-map check; since an envelope holds exactly one variant the chain
collapses to a match, with the vector test kept on `mapValue`. -/
def getFirestoreTypeName (v : FsValue) : String :=
  match v with
  | .strV _ => "stringValue"
  | .intStrV _ => "integerValue"
  | .intNumV _ => "integerValue"
  | .dblV _ => "doubleValue"
  | .boolV _ => "booleanValue"
  | .tsV _ => "timestampValue"
  | .geoV _ _ => "geoPointValue"
  | .arrV _ => "arrayValue"
  | .mapV _ => if isFirestoreVector v then "vectorValue" else "mapValue"
  | .refV _ => "referenceValue"
  | .bytesV _ => "bytesValue"
  | .nullV => "nullValue"

/-- `IsFirestoreNull` (firestore_types.cpp:93-95). -/
def isFirestoreNull : FsValue → Bool
  | .nullV => true
  | _ => false

/-- DuckDB logical types, restricted to the shapes the extension produces.
The source's several integer widths all serialize identically
(`integerValue` decimal string); the embedding keeps the 64-bit one. -/
inductive DuckType where
  | varchar
  | bigint
  | double
  | boolean
  | timestamp
  | blob
  | structT (fields : List (String × DuckType))
  | list (elem : DuckType)
  | array (elem : DuckType) (size : Nat)
  deriving Repr

/-- `LogicalTypeId` — the head discriminator the source compares via
`LogicalType::id()`. -/
inductive TypeId where
  | varchar
  | bigint
  | double
  | boolean
  | timestamp
  | blob
  | structT
  | list
  | array
  deriving Repr, DecidableEq

/-- `LogicalType::id()`. -/
def DuckType.typeId : DuckType → TypeId
  | .varchar => .varchar
  | .bigint => .bigint
  | .double => .double
  | .boolean => .boolean
  | .timestamp => .timestamp
  | .blob => .blob
  | .structT _ => .structT
  | .list _ => .list
  | .array _ _ => .array

/-- `FirestoreTypeToDuckDB` (firestore_types.cpp:125-171). -/
def firestoreTypeToDuckDB (t : String) : DuckType :=
  if t = "stringValue" then .varchar
  else if t = "integerValue" then .bigint
  else if t = "doubleValue" then .double
  else if t = "booleanValue" then .boolean
  else if t = "timestampValue" then .timestamp
  else if t = "referenceValue" then .varchar
  else if t = "bytesValue" then .blob
  else if t = "nullValue" then .varchar
  else if t = "vectorValue" then .list .double
  else if t = "geoPointValue" then
    .structT [("latitude", .double), ("longitude", .double)]
  else if t = "arrayValue" then .list .varchar
  else if t = "mapValue" then .varchar
  else .varchar

/-! ## DuckDB value model and the host oracle -/

/-- A DuckDB `Value`.  A null value carries its logical type
(`Value(target_type)` in the source). -/
inductive DValue where
  | nullV (ty : DuckType)
  | varcharV (s : String)
  | bigintV (i : Int)
  | doubleV (d : Rat)
  | booleanV (b : Bool)
  | timestampV (micros : Int)
  | blobV (bytes : String)
  | listV (elem : DuckType) (vs : List DValue)
  | arrayV (elem : DuckType) (vs : List DValue)
  | structV (fs : List (String × DValue))
  deriving Repr

/-- Host-engine and external-library primitives the codec calls out to.
These are outside the repository (DuckDB's `Timestamp` class and OpenSSL's
base64 BIO) and are modelled as oracle functions.  `parseTimestamp`/
`b64decode` return `none` exactly when the host primitive fails
(`Timestamp::FromString` throwing / `BIO_read` returning a negative
length). -/
structure Host where
  tsToString : Int → String
  parseTimestamp : String → Option Int
  b64encode : String → String
  b64decode : String → Option String

/-- `Value::IsNull()`. -/
def DValue.isNull : DValue → Bool
  | .nullV _ => true
  | _ => false

/-- `GetValue<std::string>()` — total accessor used where the source has
already established the variant. -/
def DValue.getString : DValue → String
  | .varcharV s => s
  | .blobV s => s
  | _ => ""

/-- `GetValue<int64_t>()`. -/
def DValue.getInt : DValue → Int
  | .bigintV i => i
  | _ => 0

/-- `GetValue<double>()`. -/
def DValue.getDouble : DValue → Rat
  | .doubleV d => d
  | _ => 0

/-- `GetValue<bool>()`. -/
def DValue.getBool : DValue → Bool
  | .booleanV b => b
  | _ => false

/-- `GetValue<timestamp_t>()`. -/
def DValue.getTimestamp : DValue → Int
  | .timestampV t => t
  | _ => 0

/-- `ListValue::GetChildren` / `ArrayValue::GetChildren`. -/
def DValue.getChildren : DValue → List DValue
  | .listV _ vs => vs
  | .arrayV _ vs => vs
  | _ => []

/-- `Value::ToString()` — approximated (exact host formatting of doubles and
nested values is not claim-relevant; only the string branch is exercised by
the theorems below). -/
def DValue.toStr : DValue → String
  | .nullV _ => "NULL"
  | .varcharV s => s
  | .bigintV i => toString i
  | .doubleV d => toString d
  | .booleanV b => if b then "true" else "false"
  | .timestampV t => toString t
  | .blobV s => s
  | _ => ""

/-- Replace the first space by `'T'`
(`ts_str[space_pos] = 'T'` in the encoder). -/
def replaceFirstSpaceByT (s : String) : String :=
  let rec go : List Char → List Char
    | [] => []
    | c :: rest => if c = ' ' then 'T' :: rest else c :: go rest
  String.mk (go s.toList)

/-- Replace the first `'T'` by a space (`ts_str[t_pos] = ' '` in the
decoder). -/
def replaceFirstTBySpace (s : String) : String :=
  let rec go : List Char → List Char
    | [] => []
    | c :: rest => if c = 'T' then ' ' :: rest else c :: go rest
  String.mk (go s.toList)

/-- Drop a trailing `'Z'` (`if (ts_str.back() == 'Z') ts_str.pop_back()`). -/
def dropTrailingZ (s : String) : String :=
  if s ≠ "" ∧ s.back = 'Z' then s.dropRight 1 else s

/-! ## Encoder: `DuckDBValueToFirestore` (firestore_types.cpp:397-535)

The source switches on `source_type.id()` after the null check; the embedding
mirrors that switch.  The `DECIMAL`/narrow-integer branches collapse into the
`bigint`/`double` ones (identical wire output). -/

/-- Geopoint detection inside the STRUCT branch
(firestore_types.cpp:493-505). -/
def isGeopointStruct (childTys : List (String × DuckType)) : Bool :=
  childTys.length = 2 &&
  childTys.any (fun c => c.1 = "latitude" && c.2.typeId = TypeId.double) &&
  childTys.any (fun c => c.1 = "longitude" && c.2.typeId = TypeId.double)

/-- `StructValue::GetChildren`. -/
def structChildren : DValue → List DValue
  | .structV fs => fs.map Prod.snd
  | _ => []

mutual

/-- `DuckDBValueToFirestore` (firestore_types.cpp:397-535). -/
def duckDBValueToFirestore (h : Host) (v : DValue) (ty : DuckType) : FsValue :=
  if v.isNull then .nullV
  else
    match ty with
    | .varchar => .strV v.getString
    | .bigint => .intStrV (toString v.getInt)
    | .double => .dblV v.getDouble
    | .boolean => .boolV v.getBool
    | .timestamp =>
        .tsV (replaceFirstSpaceByT (h.tsToString v.getTimestamp) ++ "Z")
    | .blob => .bytesV (h.b64encode v.getString)
    | .list elemTy => .arrV (encodeList h elemTy v.getChildren)
    | .array _ _ =>
        -- ARRAY(DOUBLE, N) -> canonical vector envelope; a NULL element is
        -- emitted as doubleValue 0.0 (firestore_types.cpp:479-485)
        .mapV [("__type__", .strV "__vector__"),
               ("value", .arrV (v.getChildren.map (fun e =>
                  if e.isNull then .dblV 0 else .dblV e.getDouble)))]
    | .structT childTys =>
        if isGeopointStruct childTys then
          let pairs := childTys.zip (structChildren v)
          let lat := pairs.foldl (fun acc p =>
            if p.1.1 = "latitude" then
              (if p.2.isNull then 0 else p.2.getDouble) else acc) 0
          let lng := pairs.foldl (fun acc p =>
            if p.1.1 = "longitude" then
              (if p.2.isNull then 0 else p.2.getDouble) else acc) 0
          .geoV lat lng
        else
          .mapV (encodeStructFields h childTys (structChildren v))
termination_by (sizeOf ty, 0, 0)

/-- The per-element loop of the LIST branch (firestore_types.cpp:465-473). -/
def encodeList (h : Host) (elemTy : DuckType) : List DValue → List FsValue
  | [] => []
  | e :: rest => duckDBValueToFirestore h e elemTy :: encodeList h elemTy rest
termination_by vs => (sizeOf elemTy, 1, sizeOf vs)

/-- The per-field loop of the STRUCT branch (firestore_types.cpp:522-527);
the source indexes `child_types[i]` alongside `children[i]`. -/
def encodeStructFields (h : Host) :
    List (String × DuckType) → List DValue → List (String × FsValue)
  | [], _ => []
  | _ :: _, [] => []
  | (n, t) :: restT, c :: restC =>
      (n, duckDBValueToFirestore h c t) :: encodeStructFields h restT restC
termination_by tys _ => (sizeOf tys, 1, 0)

end

/-! ## Pushdown filters (`firestore_index.cpp`) -/

/-- `FirestorePushdownFilter` (firestore_index.hpp:35-44), with the same
defaults. -/
structure PushFilter where
  field_path : String := ""
  firestore_op : String := ""
  firestore_value : FsValue := .nullV
  is_unary : Bool := false
  unary_op : String := ""
  is_in_filter : Bool := false
  in_values : List FsValue := []
  is_equality : Bool := false
  deriving Repr

/-- `FirestoreFilterResult` (firestore_index.hpp:47-50). -/
structure FilterResult where
  pushed_filters : List PushFilter := []
  deriving Repr

/-- `FirestoreFilterResult::has_pushdown`. -/
def FilterResult.hasPushdown (r : FilterResult) : Bool :=
  !r.pushed_filters.isEmpty

/-- The comparison kinds of `ExpressionType` that
`ConvertDuckDBFilter`/`ConvertExpressionToFilters` dispatch on;
`unsupported` stands for every other `ExpressionType`. -/
inductive CompareType where
  | eq
  | neq
  | lt
  | le
  | gt
  | ge
  | unsupported
  deriving Repr, DecidableEq

/-- The `switch (comparison_type)` shared by both converters
(firestore_index.cpp:29-53 and 520-544): Firestore operator name plus the
`is_equality` flag the source sets alongside it.  Note the source marks
`NOT_EQUAL` with `is_equality = true`. -/
def comparisonOp : CompareType → Option (String × Bool)
  | .eq => some ("EQUAL", true)
  | .neq => some ("NOT_EQUAL", true)
  | .lt => some ("LESS_THAN", false)
  | .le => some ("LESS_THAN_OR_EQUAL", false)
  | .gt => some ("GREATER_THAN", false)
  | .ge => some ("GREATER_THAN_OR_EQUAL", false)
  | .unsupported => none

/-- DuckDB `TableFilter` shapes handled by `ConvertDuckDBFilter`;
`other` stands for the filter types the `default:` branch rejects
(e.g. `ConjunctionOrFilter`). -/
inductive TableFilter where
  | constantComparison (cmp : CompareType) (constant : DValue)
  | isNullF
  | isNotNullF
  | conjunctionAnd (children : List TableFilter)
  | other
  deriving Repr

mutual

/-- `ConvertDuckDBFilter` (firestore_index.cpp:16-98). -/
def convertDuckDBFilter (h : Host) (fieldName : String) (fieldType : DuckType) :
    TableFilter → List PushFilter
  | .constantComparison cmp constant =>
      match comparisonOp cmp with
      | none => []
      | some (op, isEq) =>
          [{ field_path := fieldName, firestore_op := op, is_equality := isEq,
             firestore_value := duckDBValueToFirestore h constant fieldType }]
  | .isNullF =>
      [{ field_path := fieldName, is_unary := true, unary_op := "IS_NULL",
         is_equality := true }]
  | .isNotNullF =>
      [{ field_path := fieldName, is_unary := true, unary_op := "IS_NOT_NULL",
         is_equality := true }]
  | .conjunctionAnd children =>
      convertDuckDBFilterChildren h fieldName fieldType children
  | .other => []

/-- The `CONJUNCTION_AND` child loop of `ConvertDuckDBFilter`
(firestore_index.cpp:80-89). -/
def convertDuckDBFilterChildren (h : Host) (fieldName : String)
    (fieldType : DuckType) : List TableFilter → List PushFilter
  | [] => []
  | c :: rest =>
      convertDuckDBFilter h fieldName fieldType c ++
      convertDuckDBFilterChildren h fieldName fieldType rest

end

/-! ### Index records and matching (`firestore_index.cpp:151-330`) -/

/-- `FirestoreIndexField::Mode`. -/
inductive IndexMode where
  | ascending
  | descending
  | arrayContains
  deriving Repr, DecidableEq

/-- `FirestoreIndexField` (firestore_index.hpp:20-23). -/
structure IndexField where
  field_path : String
  mode : IndexMode := .ascending
  deriving Repr

/-- `FirestoreIndex::QueryScope`. -/
inductive QueryScope where
  | collection
  | collectionGroup
  deriving Repr, DecidableEq

/-- `FirestoreIndex::State`. -/
inductive IndexState where
  | creating
  | ready
  | needsRepair
  deriving Repr, DecidableEq

/-- `FirestoreIndex` (firestore_index.hpp:26-32). -/
structure FirestoreIndex where
  name : String := ""
  fields : List IndexField := []
  query_scope : QueryScope := .collection
  state : IndexState := .ready
  is_single_field : Bool := false
  deriving Repr

/-- `FirestoreIndexCache` (firestore_index.hpp:53-58), with the same member
initializers. -/
structure IndexCache where
  composite_indexes : List FirestoreIndex := []
  single_field_indexes : List FirestoreIndex := []
  default_single_field_enabled : Bool := true
  fetch_succeeded : Bool := false
  deriving Repr

/-- `HasSingleFieldIndex` (firestore_index.cpp:151-171). -/
def hasSingleFieldIndex (fieldPath : String) (cache : IndexCache)
    (scope : QueryScope) : Bool :=
  if cache.default_single_field_enabled then true
  else
    cache.single_field_indexes.any (fun idx =>
      idx.query_scope = scope && idx.state = IndexState.ready &&
      (match idx.fields with
       | [f] => f.field_path = fieldPath
       | _ => false))

/-- The non-`__name__` field paths of an index
(firestore_index.cpp:184-190); the source collects them into a
`std::set`, of which only membership is used. -/
def indexFieldPaths (idx : FirestoreIndex) : List String :=
  idx.fields.filterMap (fun f =>
    if f.field_path = "__name__" then none else some f.field_path)

/-- `FindMatchingCompositeIndex` (firestore_index.cpp:173-209). -/
def findMatchingCompositeIndex (eqFields : List String) (rangeField : String)
    (cache : IndexCache) (scope : QueryScope) : Bool :=
  cache.composite_indexes.any (fun idx =>
    idx.query_scope = scope && idx.state = IndexState.ready &&
    eqFields.all (fun ef => (indexFieldPaths idx).contains ef) &&
    (indexFieldPaths idx).contains rangeField)

/-- The classification used at firestore_index.cpp:236 to split candidates
into equality and range filters: `f.is_equality || f.is_unary`. -/
def inEqualityClass (f : PushFilter) : Bool :=
  f.is_equality || f.is_unary

/-- Lexicographic comparison of char lists by code point — the model of
`std::string::operator<` (bytewise; identical on the ASCII keys in play). -/
def charsLtb : List Char → List Char → Bool
  | _, [] => false
  | [], _ :: _ => true
  | a :: as, b :: bs =>
      if a.toNat < b.toNat then true
      else if b.toNat < a.toNat then false
      else charsLtb as bs

/-- `operator<` on keys. -/
def strLtb (a b : String) : Bool := charsLtb a.toList b.toList

/-- Insert into a sorted duplicate-free list — the model of
`std::set<std::string>::insert` (iteration order ascending,
`*begin()` the minimum). -/
def strSetInsert (x : String) : List String → List String
  | [] => [x]
  | y :: rest =>
      if strLtb x y then x :: y :: rest
      else if x = y then y :: rest
      else y :: strSetInsert x rest

/-- Build a `std::set<std::string>` from insertions in order. -/
def strSetOfList (xs : List String) : List String :=
  xs.foldl (fun s x => strSetInsert x s) []

/-- `MatchFiltersToIndexes` (firestore_index.cpp:211-330). -/
def matchFiltersToIndexes (candidateFilters : List PushFilter)
    (indexCache : IndexCache) (isCollectionGroup : Bool) : FilterResult :=
  if !indexCache.fetch_succeeded then {}
  else if candidateFilters.isEmpty then {}
  else
    let requiredScope :=
      if isCollectionGroup then QueryScope.collectionGroup
      else QueryScope.collection
    let equalityFilters := candidateFilters.filter inEqualityClass
    let rangeFilters := candidateFilters.filter (fun f => !inEqualityClass f)
    match rangeFilters, equalityFilters with
    | [], _ =>
        -- Case 1: only equality filters — each needs a single-field index
        { pushed_filters := equalityFilters.filter (fun ef =>
            hasSingleFieldIndex ef.field_path indexCache requiredScope) }
    | r0 :: _, [] =>
        -- Case 2: only range filters
        let rangeFields := strSetOfList (rangeFilters.map (·.field_path))
        if rangeFields.length = 1 then
          if hasSingleFieldIndex r0.field_path indexCache requiredScope then
            { pushed_filters := rangeFilters }
          else {}
        else
          let firstField := rangeFields.headD ""
          if hasSingleFieldIndex firstField indexCache requiredScope then
            { pushed_filters :=
                rangeFilters.filter (fun rf => rf.field_path = firstField) }
          else {}
    | _ :: _, _ :: _ =>
        -- Case 3: equality + range — needs a composite index
        let eqFieldSet := strSetOfList (equalityFilters.map (·.field_path))
        let rangeFieldSet := strSetOfList (rangeFilters.map (·.field_path))
        let primaryRangeField := rangeFieldSet.headD ""
        if findMatchingCompositeIndex eqFieldSet primaryRangeField indexCache
            requiredScope then
          { pushed_filters :=
              equalityFilters ++
              rangeFilters.filter (fun rf => rf.field_path = primaryRangeField) }
        else
          { pushed_filters := equalityFilters.filter (fun ef =>
              hasSingleFieldIndex ef.field_path indexCache requiredScope) }

/-! ### Expression-tree conversion (`ConvertExpressionToFilters`,
firestore_index.cpp:332-554) -/

/-- `COLUMN_IDENTIFIER_ROW_ID` — DuckDB's `idx_t(-1)` sentinel. -/
def COLUMN_IDENTIFIER_ROW_ID : Nat := 18446744073709551615

/-- Sub-expressions a comparison/operator node can hold: a bound column
reference (`table_index`, `column_index`), a bound constant, or any other
expression class (rejected by the converter). -/
inductive BSub where
  | colRef (tableIdx colIdx : Nat)
  | constE (v : DValue)
  | otherE
  deriving Repr

/-- The bound `Expression` shapes `ConvertExpressionToFilters` dispatches
on; `other` is every expression type the final branch skips. -/
inductive BExpr where
  | conjAnd (children : List BExpr)
  | conjOr (children : List BExpr)
  | isNullE (children : List BSub)
  | isNotNullE (children : List BSub)
  | cmp (t : CompareType) (l r : BSub)
  | other
  deriving Repr

/-- The `resolve_column` lambda (firestore_index.cpp:346-366).  The source
bound-checks `all_column_names` and then indexes both schema vectors (they
have equal length at every call site); the embedding reads the type with a
default for the same reason. -/
def resolveColumn (tableIndex : Nat) (allColumnNames : List String)
    (allColumnTypes : List DuckType) (columnIdMap : List Nat)
    (bindingTableIndex bindingColumnIndex : Nat) : Option (String × DuckType) :=
  if bindingTableIndex ≠ tableIndex then none
  else if bindingColumnIndex ≥ columnIdMap.length then none
  else
    let originalColIdx := columnIdMap.getD bindingColumnIndex 0
    if originalColIdx = 0 ∨ originalColIdx = COLUMN_IDENTIFIER_ROW_ID then none
    else if originalColIdx ≥ allColumnNames.length then none
    else some (allColumnNames.getD originalColIdx "",
               allColumnTypes.getD originalColIdx .varchar)

/-- Orientation detection shared by the OR and comparison branches
(firestore_index.cpp:404-414 and 480-491): which side is the column and
which the constant; `true` means the constant is on the left. -/
def extractColConst (l r : BSub) : Option (Nat × Nat × DValue × Bool) :=
  match l, r with
  | .colRef t c, .constE v => some (t, c, v, false)
  | .constE v, .colRef t c => some (t, c, v, true)
  | _, _ => none

/-- Comparison flip applied when the constant is on the left
(firestore_index.cpp:505-517); `EQUAL` and `NOT_EQUAL` are symmetric. -/
def flipComparison : CompareType → CompareType
  | .lt => .gt
  | .le => .ge
  | .gt => .lt
  | .ge => .le
  | c => c

/-- The OR-of-equalities collection loop (firestore_index.cpp:393-430):
walks the OR's children, requiring each to be an `=` comparison of the same
resolved column against a constant; accumulates the encoded values.
`commonField` starts as the empty string exactly as in the source. -/
def orEqualitiesCollect (h : Host) (tableIndex : Nat)
    (allColumnNames : List String) (allColumnTypes : List DuckType)
    (columnIdMap : List Nat) :
    List BExpr → String → DuckType → List FsValue →
    Option (String × List FsValue)
  | [], commonField, _, values => some (commonField, values)
  | child :: rest, commonField, commonType, values =>
      match child with
      | .cmp .eq l r =>
          match extractColConst l r with
          | none => none
          | some (t, c, constVal, _) =>
              match resolveColumn tableIndex allColumnNames allColumnTypes
                  columnIdMap t c with
              | none => none
              | some (fieldName, fieldType) =>
                  if commonField = "" then
                    orEqualitiesCollect h tableIndex allColumnNames
                      allColumnTypes columnIdMap rest fieldName fieldType
                      (values ++ [duckDBValueToFirestore h constVal fieldType])
                  else if commonField ≠ fieldName then none
                  else
                    orEqualitiesCollect h tableIndex allColumnNames
                      allColumnTypes columnIdMap rest commonField commonType
                      (values ++ [duckDBValueToFirestore h constVal commonType])
      | _ => none

mutual

/-- `ConvertExpressionToFilters` (firestore_index.cpp:332-554). -/
def convertExpressionToFilters (h : Host) (tableIndex : Nat)
    (allColumnNames : List String) (allColumnTypes : List DuckType)
    (columnIdMap : List Nat) : BExpr → List PushFilter
  | .conjAnd children =>
      convertExpressionChildren h tableIndex allColumnNames allColumnTypes
        columnIdMap children
  | .conjOr children =>
      if children.isEmpty then []
      else
        match orEqualitiesCollect h tableIndex allColumnNames allColumnTypes
            columnIdMap children "" .varchar [] with
        | none => []
        | some (commonField, values) =>
            if values.length > 30 then []
            else
              [{ field_path := commonField, firestore_op := "IN",
                 is_in_filter := true, is_equality := true,
                 in_values := values }]
  | .isNullE children =>
      match children with
      | [.colRef t c] =>
          match resolveColumn tableIndex allColumnNames allColumnTypes
              columnIdMap t c with
          | none => []
          | some (fieldName, _) =>
              [{ field_path := fieldName, is_unary := true,
                 unary_op := "IS_NULL", is_equality := true }]
      | _ => []
  | .isNotNullE children =>
      match children with
      | [.colRef t c] =>
          match resolveColumn tableIndex allColumnNames allColumnTypes
              columnIdMap t c with
          | none => []
          | some (fieldName, _) =>
              [{ field_path := fieldName, is_unary := true,
                 unary_op := "IS_NOT_NULL", is_equality := true }]
      | _ => []
  | .cmp cmpTy l r =>
      match extractColConst l r with
      | none => []
      | some (t, c, constVal, reversed) =>
          match resolveColumn tableIndex allColumnNames allColumnTypes
              columnIdMap t c with
          | none => []
          | some (fieldName, fieldType) =>
              let effCmp := if reversed then flipComparison cmpTy else cmpTy
              match comparisonOp effCmp with
              | none => []
              | some (op, isEq) =>
                  [{ field_path := fieldName, firestore_op := op,
                     is_equality := isEq,
                     firestore_value :=
                       duckDBValueToFirestore h constVal fieldType }]
  | .other => []

/-- The `CONJUNCTION_AND` child loop (firestore_index.cpp:369-378). -/
def convertExpressionChildren (h : Host) (tableIndex : Nat)
    (allColumnNames : List String) (allColumnTypes : List DuckType)
    (columnIdMap : List Nat) : List BExpr → List PushFilter
  | [] => []
  | c :: rest =>
      convertExpressionToFilters h tableIndex allColumnNames allColumnTypes
        columnIdMap c ++
      convertExpressionChildren h tableIndex allColumnNames allColumnTypes
        columnIdMap rest

end

/-! ### JSON dump helpers

`nlohmann::json::dump()` as called by the codec and the EXPLAIN formatter.
Escaping is restricted to quotes and backslashes and `Rat` printing stands in
for the library's double formatting; none of the theorems below depend on the
exact rendering. -/

/-- Minimal JSON string escaping. -/
def jsonEscape (s : String) : String :=
  String.join (s.toList.map (fun c =>
    if c = '"' then "\\\"" else if c = '\\' then "\\\\"
    else String.singleton c))

/-- A JSON string literal. -/
def jsonStr (s : String) : String := "\"" ++ jsonEscape s ++ "\""

/-- Comma-join. -/
def joinComma : List String → String
  | [] => ""
  | [x] => x
  | x :: rest => x ++ "," ++ joinComma rest

mutual

/-- `json::dump()` of a wire envelope. -/
def dumpFs : FsValue → String
  | .nullV => "\x7b\"nullValue\":null\x7d"
  | .strV s => "\x7b\"stringValue\":" ++ jsonStr s ++ "\x7d"
  | .intStrV s => "\x7b\"integerValue\":" ++ jsonStr s ++ "\x7d"
  | .intNumV n => "\x7b\"integerValue\":" ++ toString n ++ "\x7d"
  | .dblV d => "\x7b\"doubleValue\":" ++ toString d ++ "\x7d"
  | .boolV b =>
      "\x7b\"booleanValue\":" ++ (if b then "true" else "false") ++ "\x7d"
  | .tsV s => "\x7b\"timestampValue\":" ++ jsonStr s ++ "\x7d"
  | .geoV lat lng =>
      "\x7b\"geoPointValue\":\x7b\"latitude\":" ++ toString lat ++
      ",\"longitude\":" ++ toString lng ++ "\x7d\x7d"
  | .arrV vs =>
      "\x7b\"arrayValue\":\x7b\"values\":[" ++ dumpFsList vs ++ "]\x7d\x7d"
  | .mapV fs =>
      "\x7b\"mapValue\":\x7b\"fields\":" ++ dumpFsFields fs ++ "\x7d\x7d"
  | .refV s => "\x7b\"referenceValue\":" ++ jsonStr s ++ "\x7d"
  | .bytesV s => "\x7b\"bytesValue\":" ++ jsonStr s ++ "\x7d"

/-- Dump of an array of envelopes. -/
def dumpFsList : List FsValue → String
  | [] => ""
  | [v] => dumpFs v
  | v :: rest => dumpFs v ++ "," ++ dumpFsList rest

/-- Dump of a `fields` object (`doc.fields.dump()` /
`mapValue.fields.dump()`). -/
def dumpFsFields : List (String × FsValue) → String
  | fs => "\x7b" ++ dumpFsFieldsInner fs ++ "\x7d"

/-- Members of a `fields` object dump. -/
def dumpFsFieldsInner : List (String × FsValue) → String
  | [] => ""
  | [(k, v)] => jsonStr k ++ ":" ++ dumpFs v
  | (k, v) :: rest => jsonStr k ++ ":" ++ dumpFs v ++ "," ++ dumpFsFieldsInner rest

end

/-! ### The filter-pushdown hook (`firestore_scanner.cpp:69-146`) -/

/-- `FormatPushdownFilter` (firestore_scanner.cpp:69-92). -/
def formatPushdownFilter (f : PushFilter) : String :=
  if f.is_unary then f.field_path ++ " " ++ f.unary_op
  else if f.is_in_filter then
    f.field_path ++ " " ++ f.firestore_op ++ " [" ++
      toString f.in_values.length ++ " values]"
  else
    let valStr :=
      match f.firestore_value with
      | .strV s => "'" ++ s ++ "'"
      | .intStrV s => s
      | .intNumV n => toString n
      | .dblV d => toString d
      | .boolV b => if b then "true" else "false"
      | .nullV => "NULL"
      | v => dumpFs v
    f.field_path ++ " " ++ f.firestore_op ++ " " ++ valStr

/-- `FirestoreScanBindData` — the members of the bind data the embedded
functions touch (firestore_scanner.hpp). -/
structure ScanBindData where
  collection : String
  limit : Option Nat := none
  order_by : Option String := none
  column_names : List String := []
  column_types : List DuckType := []
  candidate_pushdown_filters : List PushFilter := []
  index_cache : Option IndexCache := none
  is_collection_group : Bool := false
  deriving Repr

/-- The members of DuckDB's `LogicalGet` the hook reads and writes:
the bind-time schema, the projection's `column_ids`, and
`extra_info.file_filters` (EXPLAIN text). -/
structure LogicalGetInfo where
  table_index : Nat
  names : List String := []
  returned_types : List DuckType := []
  column_ids : List Nat := []
  file_filters : String := ""
  deriving Repr

/-- `!collection.empty() && collection[0] == '~'`. -/
def isCollectionGroupName (s : String) : Bool :=
  match s.toList with
  | '~' :: _ => true
  | _ => false

/-- Join with `", "` as the EXPLAIN formatter's loop does. -/
def joinCommaSpace : List String → String
  | [] => ""
  | [x] => x
  | x :: rest => x ++ ", " ++ joinCommaSpace rest

/-- `FirestoreComplexFilterPushdown` (firestore_scanner.cpp:98-146).  The
C++ takes the expression vector by reference and only reads it; the
embedding returns the vector alongside the updated bind data and
`LogicalGet`, so the frame effect is visible in the result. -/
def firestoreComplexFilterPushdown (h : Host) (get : LogicalGetInfo)
    (bindData : ScanBindData) (filters : List BExpr) :
    ScanBindData × LogicalGetInfo × List BExpr :=
  match bindData.index_cache with
  | none => (bindData, get, filters)
  | some ic =>
      if !ic.fetch_succeeded then (bindData, get, filters)
      else
        let columnIdMap := get.column_ids
        let candidates := filters.foldl (fun acc f =>
          acc ++ convertExpressionToFilters h get.table_index get.names
            get.returned_types columnIdMap f) []
        let bindData := { bindData with candidate_pushdown_filters := candidates }
        let get :=
          if candidates.isEmpty then get
          else
            let isCG := isCollectionGroupName bindData.collection
            let result := matchFiltersToIndexes candidates ic isCG
            if result.hasPushdown then
              { get with file_filters :=
                  "Firestore Pushed Filters: " ++
                  joinCommaSpace (result.pushed_filters.map formatPushdownFilter) }
            else get
        (bindData, get, filters)

/-! ## Sorted-map model of `std::map<std::string, _>`

`std::map` iterates keys in ascending order; the model keeps assoc lists
sorted and duplicate-free so folds over them reproduce the source's
iteration order. -/

/-- `map.find(k)`. -/
def smapFind? (k : String) : List (String × α) → Option α
  | [] => none
  | (k', v) :: rest => if k = k' then some v else smapFind? k rest

/-- `map[k]` with default-insert followed by an update — the general
ordered-insert primitive. -/
def smapAlter (k : String) (f : Option α → α) : List (String × α) → List (String × α)
  | [] => [(k, f none)]
  | (k', v) :: rest =>
      if strLtb k k' then (k, f none) :: (k', v) :: rest
      else if k = k' then (k', f (some v)) :: rest
      else (k', v) :: smapAlter k f rest

/-- Insert only when absent (`if (m.find(k) == m.end()) m[k] = v`). -/
def smapInsertIfAbsent (k : String) (v : α) (m : List (String × α)) :
    List (String × α) :=
  smapAlter k (fun old => old.getD v) m

/-- `m[k]++` on an integer-valued map (`operator[]` default-inserts 0). -/
def smapIncr (k : String) (m : List (String × Int)) : List (String × Int) :=
  smapAlter k (fun old => old.getD 0 + 1) m

/-! ## Schema inference — the live path
(`FirestoreClient::InferSchema`, firestore_client.cpp:694-794)

This is the function `FirestoreScanBind` calls (firestore_scanner.cpp:253).
Per field it stores the **first seen** variant
(`if (field_types.find(field_name) == field_types.end())`,
firestore_client.cpp:757-759); array element types are tallied over the
whole sample. -/

/-- The inline variant chain of `InferSchema`
(firestore_client.cpp:727-754).  Unlike `GetFirestoreTypeName` it has no
vector case — a vector envelope falls into `mapValue`. -/
def clientFieldTypeName : FsValue → String
  | .strV _ => "stringValue"
  | .intStrV _ => "integerValue"
  | .intNumV _ => "integerValue"
  | .dblV _ => "doubleValue"
  | .boolV _ => "booleanValue"
  | .tsV _ => "timestampValue"
  | .geoV _ _ => "geoPointValue"
  | .arrV _ => "arrayValue"
  | .mapV _ => "mapValue"
  | .refV _ => "referenceValue"
  | .bytesV _ => "bytesValue"
  | .nullV => "nullValue"

/-- The array-element variant chain (firestore_client.cpp:738-746);
`none` means `nullValue` (skipped for inference). -/
def clientElemTypeName : FsValue → Option String
  | .strV _ => some "stringValue"
  | .intStrV _ => some "integerValue"
  | .intNumV _ => some "integerValue"
  | .dblV _ => some "doubleValue"
  | .boolV _ => some "booleanValue"
  | .tsV _ => some "timestampValue"
  | .nullV => none
  | _ => some "stringValue"

/-- The two accumulator maps of `InferSchema`
(firestore_client.cpp:716-718). -/
structure ClientInferAcc where
  field_types : List (String × String) := []
  array_element_types : List (String × List (String × Int)) := []
  deriving Repr

/-- One array element's contribution to
`array_element_types[field_name][elem_type]++`
(firestore_client.cpp:736-747). -/
def clientTallyElem (fieldName : String)
    (m : List (String × List (String × Int))) (e : FsValue) :
    List (String × List (String × Int)) :=
  match clientElemTypeName e with
  | none => m
  | some et => smapAlter fieldName (fun old => smapIncr et (old.getD [])) m

/-- Processing of one document field (firestore_client.cpp:721-760). -/
def clientScanField (acc : ClientInferAcc) (fieldName : String) (v : FsValue) :
    ClientInferAcc :=
  let typeName := clientFieldTypeName v
  let acc :=
    match v with
    | .arrV elems =>
        { acc with array_element_types :=
            elems.foldl (clientTallyElem fieldName) acc.array_element_types }
    | _ => acc
  { acc with field_types := smapInsertIfAbsent fieldName typeName acc.field_types }

/-- Processing of one document (firestore_client.cpp:720-761). -/
def clientScanDoc (acc : ClientInferAcc) (fields : List (String × FsValue)) :
    ClientInferAcc :=
  fields.foldl (fun a p => clientScanField a p.1 p.2) acc

/-- The element-type vote for an array field
(firestore_client.cpp:768-783): start from `("stringValue", 0)`, update on
strictly greater count, iterating the map in ascending key order. -/
def bestArrayElemType (tallies : List (String × Int)) : DuckType :=
  let best := (tallies.foldl (fun (b : String × Int) p =>
      if p.2 > b.2 then p else b) ("stringValue", 0)).1
  if best = "integerValue" then .bigint
  else if best = "doubleValue" then .double
  else if best = "booleanValue" then .boolean
  else if best = "timestampValue" then .timestamp
  else .varchar

/-- The final per-field conversion of `InferSchema`
(firestore_client.cpp:764-789): an `arrayValue` field becomes a LIST of the
voted element type, everything else goes through the codec table. -/
def clientResolveType (acc : ClientInferAcc) (name tn : String) : DuckType :=
  if tn = "arrayValue" then
    match smapFind? name acc.array_element_types with
    | none => DuckType.list .varchar
    | some tallies => DuckType.list (bestArrayElemType tallies)
  else firestoreTypeToDuckDB tn

/-- `FirestoreClient::InferSchema` (firestore_client.cpp:694-794), applied
to the sampled documents' field maps.  The result is iterated from the
`std::map`, hence sorted by field name. -/
def inferSchemaClient (docs : List (List (String × FsValue))) :
    List (String × DuckType) :=
  let acc := docs.foldl clientScanDoc {}
  acc.field_types.map (fun p => (p.1, clientResolveType acc p.1 p.2))

/-! ## Schema inference — the majority-vote helper
(`InferSchemaFromDocuments`, firestore_types.cpp:814-888)

Declared in the header but never called by the extension; embedded here
because the tie-break behaviour is part of what claim sources cite.  Ties
are won by whichever variant the sorted `std::map` iteration reaches first
(`cnt > best_count` is strict), i.e. the lexicographically smallest variant
name, not necessarily `stringValue`. -/

/-- `InferredColumn` (firestore_types.hpp). -/
structure InferredColumn where
  name : String
  type : DuckType
  nullable : Bool := true
  occurrence_count : Int := 0
  deriving Repr

/-- `InferArrayElementType` (firestore_types.cpp:766-812). -/
def inferArrayElementType (docs : List (List (String × FsValue)))
    (fieldName : String) (sampleSize : Nat) : DuckType :=
  let tallies := (docs.take sampleSize).foldl (fun m fields =>
    match lookupField fields fieldName with
    | some (.arrV elems) =>
        elems.foldl (fun m e =>
          let et := getFirestoreTypeName e
          if et ≠ "nullValue" then smapIncr et m else m) m
    | _ => m) []
  let best := (tallies.foldl (fun (b : String × Int) p =>
      if p.2 > b.2 then p else b) ("stringValue", 0)).1
  if best = "stringValue" then .varchar
  else if best = "integerValue" then .bigint
  else if best = "doubleValue" then .double
  else if best = "booleanValue" then .boolean
  else if best = "timestampValue" then .timestamp
  else .varchar

/-- The per-field variant vote of `InferSchemaFromDocuments`
(firestore_types.cpp:844-852): skip `nullValue`, strict improvement over a
`("stringValue", 0)` start, ascending iteration. -/
def bestNonNullVariant (counts : List (String × Int)) : String :=
  (counts.foldl (fun (b : String × Int) p =>
      if p.1 ≠ "nullValue" ∧ p.2 > b.2 then p else b) ("stringValue", 0)).1

/-- `InferSchemaFromDocuments` (firestore_types.cpp:814-888). -/
def inferSchemaFromDocuments (docs : List (List (String × FsValue)))
    (sampleSize : Nat) : List InferredColumn :=
  let sample := docs.take sampleSize
  let counts : List (String × List (String × Int)) :=
    sample.foldl (fun m fields =>
      fields.foldl (fun m p =>
        smapAlter p.1 (fun old =>
          smapIncr (getFirestoreTypeName p.2) (old.getD [])) m) m) []
  let occurrences : List (String × Int) :=
    sample.foldl (fun m fields =>
      fields.foldl (fun m p => smapIncr p.1 m) m) []
  let totalDocs : Nat := min docs.length sampleSize
  counts.map (fun p =>
    let occ := (smapFind? p.1 occurrences).getD 0
    let bestType := bestNonNullVariant p.2
    let ty :=
      if bestType = "arrayValue" then
        DuckType.list (inferArrayElementType docs p.1 sampleSize)
      else if bestType = "vectorValue" then
        -- dimension from the first vector occurrence with a positive
        -- dimension (firestore_types.cpp:860-876)
        let dimension := docs.foldl (fun d fields =>
          if d > 0 then d
          else
            match lookupField fields p.1 with
            | some v =>
                if isFirestoreVector v then getVectorDimension v else 0
            | none => 0) 0
        if dimension > 0 then DuckType.array .double dimension
        else DuckType.list .double
      else firestoreTypeToDuckDB bestType
    { name := p.1, type := ty, occurrence_count := occ,
      nullable := occ < (totalDocs : Int) })

/-! ## Scan bind: schema cache and index fetch
(`FirestoreScanBind`, firestore_scanner.cpp:170-324) -/

/-- `CachedSchemaEntry` (firestore_scanner.cpp:16-29).  `expired` records
the outcome `IsExpired()` would report at the present bind (the TTL clock
is an oracle). -/
structure CachedSchemaEntry where
  schema : List (String × DuckType)
  index_cache : Option IndexCache := none
  expired : Bool := false
  deriving Repr

/-- The process-wide schema cache (unique keys). -/
abbrev SchemaCache := List (String × CachedSchemaEntry)

/-- `schema_cache.find(key)`. -/
def cacheFind? (key : String) (c : SchemaCache) : Option CachedSchemaEntry :=
  (c.find? (fun p => p.1 = key)).map Prod.snd

/-- `schema_cache.erase(it)`. -/
def cacheErase (key : String) (c : SchemaCache) : SchemaCache :=
  c.filter (fun p => p.1 ≠ key)

/-- `schema_cache[key] = entry`. -/
def cacheInsert (key : String) (e : CachedSchemaEntry) (c : SchemaCache) :
    SchemaCache :=
  (key, e) :: cacheErase key c

/-- Outcome of the admin-endpoint index fetch attempted during bind
(firestore_scanner.cpp:283-310): either both calls succeeded, or some
exception was thrown. -/
inductive FetchOutcome where
  | ok (compositeIndexes : List FirestoreIndex) (defaultEnabled : Bool)
  | failed
  deriving Repr

/-- The index cache the bind builds from the fetch outcome.  On failure the
catch block sets `fetch_succeeded = true` and
`default_single_field_enabled = true` (firestore_scanner.cpp:301-310), so
pushdown stays permitted. -/
def indexCacheOfFetch : FetchOutcome → IndexCache
  | .ok comps dflt =>
      { composite_indexes := comps, single_field_indexes := [],
        default_single_field_enabled := dflt, fetch_succeeded := true }
  | .failed =>
      { composite_indexes := [], single_field_indexes := [],
        default_single_field_enabled := true, fetch_succeeded := true }

/-- The fall-through of `FirestoreScanBind` once inference has run
(firestore_scanner.cpp:251-323): empty schema raises
`NOT_FOUND_COLLECTION` before anything is cached; otherwise the schema and
the fetched index cache are stored. -/
def bindInferPath (cache : SchemaCache) (key : String)
    (inferred : List (String × DuckType)) (fetch : FetchOutcome) :
    SchemaCache × Except String (List (String × DuckType) × Option IndexCache) :=
  if inferred.isEmpty then (cache, .error "NOT_FOUND_COLLECTION")
  else
    let ic := indexCacheOfFetch fetch
    (cacheInsert key { schema := inferred, index_cache := some ic } cache,
     .ok (("__document_id", DuckType.varchar) :: inferred, some ic))

/-- The cache-consulting prefix of `FirestoreScanBind`
(firestore_scanner.cpp:208-249): a fresh, non-empty cached schema is
reused; a cached *empty* schema is erased and inference re-runs; an expired
entry is erased likewise.  `inferred` is what `client.InferSchema` returns
when invoked. -/
def firestoreScanBind (cache : SchemaCache) (key : String)
    (inferred : List (String × DuckType)) (fetch : FetchOutcome) :
    SchemaCache × Except String (List (String × DuckType) × Option IndexCache) :=
  match cacheFind? key cache with
  | some entry =>
      if !entry.expired then
        if entry.schema.isEmpty then
          bindInferPath (cacheErase key cache) key inferred fetch
        else
          (cache, .ok (("__document_id", DuckType.varchar) :: entry.schema,
                       entry.index_cache))
      else bindInferPath (cacheErase key cache) key inferred fetch
  | none => bindInferPath cache key inferred fetch

/-- Whether the bind reaches the inference call (no fresh non-empty cache
hit). -/
def bindReachesInference (cache : SchemaCache) (key : String) : Bool :=
  match cacheFind? key cache with
  | some entry => entry.expired || entry.schema.isEmpty
  | none => true

/-! ## C++ stdlib numeric parses

`std::stoll` / `std::stod` as the decoder calls them: optional whitespace
and sign, then at least one digit; no digits or an out-of-int64-range value
throws (modelled as `none`).  Exponent/hex/infinity forms of `stod` are not
modelled — no theorem below touches them. -/

/-- Numeric value of a digit list. -/
def digitsVal (ds : List Char) : Nat :=
  ds.foldl (fun a c => a * 10 + (c.toNat - 48)) 0

/-- Leading-whitespace test used by both parsers. -/
def isSpaceChar (c : Char) : Bool :=
  c = ' ' || c = '\t' || c = '\n' || c = '\r'

/-- `std::stoll`. -/
def stollOpt (s : String) : Option Int :=
  let cs := s.toList.dropWhile isSpaceChar
  let signAndRest : Bool × List Char :=
    match cs with
    | '-' :: rest => (true, rest)
    | '+' :: rest => (false, rest)
    | _ => (false, cs)
  let digits := signAndRest.2.takeWhile Char.isDigit
  if digits.isEmpty then none
  else
    let mag : Int := (digitsVal digits : Int)
    let v : Int := if signAndRest.1 then -mag else mag
    if v < -(2 ^ 63) ∨ (2 ^ 63 - 1 : Int) < v then none else some v

/-- `std::stod` (restricted to plain decimal forms). -/
def stodOpt (s : String) : Option Rat :=
  let cs := s.toList.dropWhile isSpaceChar
  let signAndRest : Bool × List Char :=
    match cs with
    | '-' :: rest => (true, rest)
    | '+' :: rest => (false, rest)
    | _ => (false, cs)
  let intDigits := signAndRest.2.takeWhile Char.isDigit
  let afterInt := signAndRest.2.drop intDigits.length
  let fracDigits :=
    match afterInt with
    | '.' :: tl => tl.takeWhile Char.isDigit
    | _ => []
  if intDigits.isEmpty ∧ fracDigits.isEmpty then none
  else
    let mag : Rat :=
      (digitsVal intDigits : Rat) +
      (digitsVal fracDigits : Rat) / ((10 : Rat) ^ fracDigits.length)
    some (if signAndRest.1 then -mag else mag)

/-- `static_cast<int64_t>(double)` — truncation toward zero. -/
def ratTrunc (d : Rat) : Int := d.num / (d.den : Int)

/-! ## Decoder: `FirestoreValueToDuckDB` (firestore_types.cpp:178-395)

The decoder is total on well-formed envelopes except for one spot: an
`integerValue` carried as an unparsable string *inside a vector envelope*
goes through an unguarded `std::stod` (firestore_types.cpp:352) and throws;
that is the only `.error` the embedding produces. -/

/-- `Base64Decode` (firestore_types.cpp:33-54): on failure the **encoded
input is returned as-is** ("Return as-is if decoding fails"). -/
def base64Decode (h : Host) (encoded : String) : String :=
  match h.b64decode encoded with
  | some d => d
  | none => encoded

/-- Conversion of a parsed integer array element to the nominal element
type (firestore_types.cpp:278-285). -/
def intElemAs (elementType : DuckType) (i : Int) : DValue :=
  if elementType.typeId = TypeId.bigint then .bigintV i
  else if elementType.typeId = TypeId.double then .doubleV (i : Rat)
  else .varcharV (toString i)

/-- One element of a vector envelope (firestore_types.cpp:344-363).  The
`integerValue`-as-string case runs `std::stod` with no try/catch. -/
def decodeVectorElem : FsValue → Except String DValue
  | .dblV d => .ok (.doubleV d)
  | .intStrV s =>
      match stodOpt s with
      | some d => .ok (.doubleV d)
      | none => .error "std::stod: invalid integerValue inside vector"
  | .intNumV n => .ok (.doubleV (n : Rat))
  | .nullV => .ok (.nullV .double)
  | _ => .ok (.nullV .double)

/-- The vector element loop. -/
def decodeVectorElems : List FsValue → Except String (List DValue)
  | [] => .ok []
  | e :: rest => do
      let v ← decodeVectorElem e
      let vs ← decodeVectorElems rest
      .ok (v :: vs)

/-- `ListType::GetChildType(target_type)` guarded by the
`target_type.id() == LIST` check (firestore_types.cpp:247-251): the nominal
element type, defaulting to VARCHAR. -/
def listElementTypeOf : DuckType → DuckType
  | .list e => e
  | _ => .varchar

/-- Serialization of a nested list decoded inside a VARCHAR-typed list
(firestore_types.cpp:313-326): each child becomes its `ToString`, nulls
become JSON null. -/
def serializeNestedList (nested : DValue) : String :=
  let items :=
    match nested with
    | .listV _ children =>
        children.map (fun c =>
          if c.isNull then "null" else jsonStr c.toStr)
    | _ => []
  "[" ++ joinComma items ++ "]"

mutual

/-- `FirestoreValueToDuckDB` (firestore_types.cpp:178-395). -/
def firestoreValueToDuckDB (h : Host) (fv : FsValue) (targetType : DuckType) :
    Except String DValue :=
  match fv with
  | .nullV => .ok (.nullV targetType)
  | .strV s => .ok (.varcharV s)
  | .intStrV s =>
      -- parse failure logs a warning and returns NULL (lines 190-197)
      match stollOpt s with
      | some i => .ok (.bigintV i)
      | none => .ok (.nullV targetType)
  | .intNumV n => .ok (.bigintV n)
  | .dblV d => .ok (.doubleV d)
  | .boolV b => .ok (.booleanV b)
  | .tsV s =>
      -- parse failure falls back to the raw wire string (lines 221-228)
      match h.parseTimestamp (replaceFirstTBySpace (dropTrailingZ s)) with
      | some t => .ok (.timestampV t)
      | none => .ok (.varcharV s)
  | .geoV lat lng =>
      .ok (.structV [("latitude", .doubleV lat), ("longitude", .doubleV lng)])
  | .arrV vs =>
      match decodeArrayElems h (listElementTypeOf targetType) vs with
      | .ok vals => .ok (.listV (listElementTypeOf targetType) vals)
      | .error e => .error e
  | .mapV fs =>
      if isFirestoreVector (.mapV fs) then
        match lookupField fs "value" with
        | some (.arrV elems) =>
            match decodeVectorElems elems with
            | .ok ds =>
                .ok (if targetType.typeId = TypeId.array then .arrayV .double ds
                     else .listV .double ds)
            | .error e => .error e
        | _ =>
            .ok (if targetType.typeId = TypeId.array then .arrayV .double []
                 else .listV .double [])
      else .ok (.varcharV (dumpFsFields fs))
  | .refV s => .ok (.varcharV s)
  | .bytesV b => .ok (.blobV (base64Decode h b))
termination_by (sizeOf fv, 0)

/-- The array element loop (firestore_types.cpp:253-335). -/
def decodeArrayElems (h : Host) (elementType : DuckType)
    (vs : List FsValue) : Except String (List DValue) :=
  match vs with
  | [] => .ok []
  | e :: rest =>
      match decodeArrayElem h elementType e with
      | .error err => .error err
      | .ok v =>
          match decodeArrayElems h elementType rest with
          | .error err => .error err
          | .ok vs => .ok (v :: vs)
termination_by (sizeOf vs, 2)

/-- One element of a plain array (firestore_types.cpp:256-333). -/
def decodeArrayElem (h : Host) (elementType : DuckType) (e : FsValue) :
    Except String DValue :=
  match e with
  | .nullV => .ok (.nullV elementType)
  | .strV s => .ok (.varcharV s)
  | .intStrV s =>
      -- element parse failure logs at debug and pushes NULL (lines 268-275)
      match stollOpt s with
      | none => .ok (.nullV elementType)
      | some i => .ok (intElemAs elementType i)
  | .intNumV i => .ok (intElemAs elementType i)
  | .dblV d =>
      if elementType.typeId = TypeId.double then .ok (.doubleV d)
      else if elementType.typeId = TypeId.bigint then .ok (.bigintV (ratTrunc d))
      else .ok (.varcharV (toString d))
  | .boolV b =>
      if elementType.typeId = TypeId.boolean then .ok (.booleanV b)
      else .ok (.varcharV (if b then "true" else "false"))
  | .mapV fs => .ok (.varcharV (dumpFsFields fs))
  | .arrV inner =>
      match firestoreValueToDuckDB h (.arrV inner) (.list elementType) with
      | .error err => .error err
      | .ok nested =>
          if elementType.typeId = TypeId.varchar then
            .ok (.varcharV (serializeNestedList nested))
          else .ok nested
  | other => .ok (.varcharV (dumpFs other))
termination_by (sizeOf e, 1)

end

/-! ## Batched write planner
(`FirestoreUpdateBatchFunction`, firestore_writer.cpp:573-656 and
`FirestoreDeleteBatchFunction`, firestore_writer.cpp:736-807)

The two functions share their control flow verbatim; only the per-document
client call differs (`UpdateDocument` vs `DeleteDocument`).  The embedding
abstracts the remote into two oracles: `batchFails grp` — whether
`BatchWrite` on that group throws `FirestorePermissionException` — and
`indiv id` — the outcome of the per-document call (`ok`, a
`FirestoreNotFoundException`, or any other exception, which the outer catch
turns into a fatal `InvalidInputException`). -/

/-- Outcome of one per-document client call. -/
inductive IndivOutcome where
  | ok
  | notFound
  | fatal
  deriving Repr, DecidableEq

/-- `BATCH_SIZE` (firestore_writer.cpp:597/753). -/
def BATCH_SIZE : Nat := 500

/-- The permission-fallback loop over one buffered group
(firestore_writer.cpp:635-643 / 786-794): not-found is caught and skipped,
anything else escapes to the outer catch. -/
def processIndividually (indiv : String → IndivOutcome) :
    List String → Nat → Except String Nat
  | [], count => .ok count
  | docId :: rest, count =>
      match indiv docId with
      | .ok => processIndividually indiv rest (count + 1)
      | .notFound => processIndividually indiv rest count
      | .fatal => .error docId

/-- The main loop of the batch functions (firestore_writer.cpp:600-648 /
756-799).  State: remaining ids, the buffered `writes` group (ids in
order), the sticky `use_individual_ops` flag, the running `count`, and the
trace of groups on which `BatchWrite` was attempted. -/
def batchOpsLoop (batchFails : List String → Bool)
    (indiv : String → IndivOutcome) :
    List String → List String → Bool → Nat → List (List String) →
    Except String (Nat × List (List String))
  | [], _writes, _useIndiv, count, trace => .ok (count, trace)
  | docId :: rest, writes, useIndiv, count, trace =>
      if useIndiv then
        match indiv docId with
        | .ok => batchOpsLoop batchFails indiv rest writes true (count + 1) trace
        | .notFound => batchOpsLoop batchFails indiv rest writes true count trace
        | .fatal => .error docId
      else
        let writes := writes ++ [docId]
        if writes.length ≥ BATCH_SIZE ∨ rest.isEmpty then
          let trace := trace ++ [writes]
          if batchFails writes then
            -- permission denied: process this group individually, then
            -- stay in individual mode for the remainder
            match processIndividually indiv writes count with
            | .error e => .error e
            | .ok count2 =>
                batchOpsLoop batchFails indiv rest [] true count2 trace
          else
            batchOpsLoop batchFails indiv rest [] false
              (count + writes.length) trace
        else batchOpsLoop batchFails indiv rest writes false count trace

/-- A whole `update_batch`/`delete_batch` call on a list of document ids:
returns the emitted `count` and the trace of attempted batch groups, or the
message of a fatal error. -/
def runBatchOps (batchFails : List String → Bool)
    (indiv : String → IndivOutcome) (ids : List String) :
    Except String (Nat × List (List String)) :=
  batchOpsLoop batchFails indiv ids [] false 0 []

/-! ## Scan executor (`FirestoreScanFunction`,
firestore_scanner.cpp:507-642)

Documents are tracked by page size: the executor's control flow reads only
`documents.size()`, emptiness, and the running `current_index`; document
contents feed the output columns but never influence how many rows are
produced or when pages are fetched. -/

/-- `STANDARD_VECTOR_SIZE` — DuckDB's default output-batch capacity. -/
def STANDARD_VECTOR_SIZE : Nat := 2048

/-- One remote page: how many documents came back and, for the
`ListDocuments` discipline, the continuation token. -/
structure Page where
  docs : Nat
  next_page_token : String := ""
  deriving Repr

/-- The remote side of a scan: the result of the k-th fetch (the first
fetch, performed in `FirestoreScanInitGlobal`, is fetch 0). -/
structure ScanOracle where
  pages : Nat → Page

/-- `FirestoreScanGlobalState` — the members the executor reads and
writes, plus a fetch counter addressing the oracle. -/
structure ScanGlobal where
  documents : Nat
  current_index : Nat
  finished : Bool
  uses_run_query : Bool
  last_page_was_full : Bool
  next_page_token : String
  query_page_size : Nat
  fetches : Nat
  deriving Repr

/-- The row-filling `while (count < max_count)` loop
(firestore_scanner.cpp:530-627), structured over the remaining row budget.
When the current page is exhausted the same iteration fetches the next page
(per the active pagination discipline) and, if it is non-empty, emits that
page's first row. -/
def fillLoop (o : ScanOracle) : Nat → ScanGlobal → ScanGlobal × Nat
  | 0, g => (g, 0)
  | budget + 1, g =>
      if g.current_index ≥ g.documents then
        if g.uses_run_query then
          -- cursor discipline (lines 533-560)
          if !g.last_page_was_full ∨ g.documents = 0 then (g, 0)
          else
            let page := o.pages g.fetches
            let g := { g with
                       fetches := g.fetches + 1,
                       last_page_was_full := decide (page.docs ≥ g.query_page_size) }
            if page.docs = 0 then (g, 0)
            else
              let g := { g with documents := page.docs, current_index := 0 }
              let g := { g with current_index := g.current_index + 1 }
              let next := fillLoop o budget g
              (next.1, next.2 + 1)
        else
          -- page-token discipline (lines 561-582)
          if g.next_page_token = "" then (g, 0)
          else
            let page := o.pages g.fetches
            let g := { g with fetches := g.fetches + 1 }
            if page.docs = 0 then (g, 0)
            else
              let g := { g with
                         documents := page.docs,
                         next_page_token := page.next_page_token,
                         current_index := 0 }
              let g := { g with current_index := g.current_index + 1 }
              let next := fillLoop o budget g
              (next.1, next.2 + 1)
      else
        let g := { g with current_index := g.current_index + 1 }
        let next := fillLoop o budget g
        (next.1, next.2 + 1)

/-- The post-loop bookkeeping (firestore_scanner.cpp:629-639). -/
def postLoop (g : ScanGlobal) (count : Nat) : ScanGlobal :=
  if count = 0 then { g with finished := true }
  else if g.current_index ≥ g.documents then
    if g.uses_run_query then g
    else if g.next_page_token = "" then { g with finished := true }
    else g
  else g

/-- One invocation of `FirestoreScanFunction`
(firestore_scanner.cpp:507-642): returns the updated global state and the
output cardinality.  Note the limit guard reads
`total_returned = global_state.current_index` (line 521). -/
def scanStep (limit : Option Nat) (o : ScanOracle) (g : ScanGlobal) :
    ScanGlobal × Nat :=
  if g.finished then (g, 0)
  else
    let maxCount := STANDARD_VECTOR_SIZE
    match limit with
    | some l =>
        let totalReturned := g.current_index
        if totalReturned ≥ l then ({ g with finished := true }, 0)
        else
          let maxCount := min maxCount (l - totalReturned)
          let res := fillLoop o maxCount g
          (postLoop res.1 res.2, res.2)
    | none =>
        let res := fillLoop o maxCount g
        (postLoop res.1 res.2, res.2)

/-- `FirestoreScanInitGlobal`, specialized to the successful
filter-pushdown path (firestore_scanner.cpp:364-450, 495-499): the first
`RunQuery` page is fetch 0; `page_size = min(limit, 1000)`. -/
def initGlobalRunQuery (limit : Option Nat) (o : ScanOracle) : ScanGlobal :=
  let pageSize : Nat :=
    match limit with
    | some l => min l 1000
    | none => 1000
  let response := o.pages 0
  { documents := response.docs, current_index := 0,
    finished := response.docs = 0, uses_run_query := true,
    last_page_was_full := response.docs ≥ pageSize,
    next_page_token := "", query_page_size := pageSize, fetches := 1 }

/-- Drive `k` successive invocations of the scan function, totalling the
emitted rows. -/
def driveScan (limit : Option Nat) (o : ScanOracle) :
    Nat → ScanGlobal → ScanGlobal × Nat
  | 0, g => (g, 0)
  | k + 1, g =>
      let step := scanStep limit o g
      let rest := driveScan limit o k step.1
      (rest.1, step.2 + rest.2)

/-! ## Document client request path
(`FirestoreClient::MakeRequest`, firestore_client.cpp:83-170 and
`HandleError`, firestore_client.cpp:172-213)

The HTTP transport is an oracle: `none` models a transport failure
(`!res`), `some status` a delivered response.  The call counts its HTTP
requests and token refreshes so the retry behaviour is visible. -/

/-- The credential state `MakeRequest` interacts with. -/
structure Credentials where
  isServiceAccount : Bool
  tokenValid : Bool
  deriving Repr, DecidableEq

/-- Error categories of the taxonomy reachable from `HandleError`. -/
inductive ErrorCategory where
  | auth
  | permission
  | notFound
  | network
  | request
  | internal
  deriving Repr, DecidableEq

/-- `FirestoreAuthManager::RefreshTokenIfNeeded`
(firestore_auth.cpp:283-300): refresh only for service accounts whose token
is invalid at call start; returns the refresh count (0 or 1). -/
def refreshTokenIfNeeded (c : Credentials) : Credentials × Nat :=
  if !c.isServiceAccount then (c, 0)
  else if c.tokenValid then (c, 0)
  else ({ c with tokenValid := true }, 1)

/-- `FirestoreClient::HandleError` (firestore_client.cpp:172-213): 2xx is
success; 401 throws an auth error, 403 permission, 404 not-found, 429 and
5xx request errors, anything else the internal bucket. -/
def handleErrorStatus (status : Nat) : Option ErrorCategory :=
  if 200 ≤ status ∧ status < 300 then none
  else if status = 401 then some .auth
  else if status = 403 then some .permission
  else if status = 404 then some .notFound
  else if status = 429 then some .request
  else if 500 ≤ status then some .request
  else some .internal

/-- Counters describing what one `MakeRequest` did. -/
structure RequestTrace where
  httpRequests : Nat
  tokenRefreshes : Nat
  deriving Repr, DecidableEq

/-- `FirestoreClient::MakeRequest` (firestore_client.cpp:83-170): refresh
if the token is invalid at call start, issue exactly one HTTP request, then
classify the status via `HandleError`.  There is no 401-triggered refresh,
no retry, and no token invalidation on error. -/
def makeRequest (c : Credentials) (response : Option Nat) :
    Credentials × RequestTrace × Except ErrorCategory Unit :=
  let refreshed := refreshTokenIfNeeded c
  let trace : RequestTrace :=
    { httpRequests := 1, tokenRefreshes := refreshed.2 }
  match response with
  | none => (refreshed.1, trace, .error .network)
  | some status =>
      match handleErrorStatus status with
      | none => (refreshed.1, trace, .ok ())
      | some cat => (refreshed.1, trace, .error cat)

/-! ## Concrete oracles and inputs used by witnesses and counterexamples -/

/-- A host whose timestamp parser and base64 decoder reject their inputs —
the instantiation used when exercising the codec's failure paths. -/
def oracleHost : Host :=
  { tsToString := fun _ => "", parseTimestamp := fun _ => none,
    b64encode := fun s => s, b64decode := fun _ => none }

/-- The NOT_EQUAL candidate filter `ConvertDuckDBFilter` builds for
`amount <> 100` on a BIGINT column. -/
def neqFilterExample : PushFilter :=
  { field_path := "amount", firestore_op := "NOT_EQUAL", is_equality := true,
    firestore_value := .intStrV "100" }

/-- The unary candidate filter built for `tag IS NOT NULL`. -/
def isNotNullFilterExample : PushFilter :=
  { field_path := "tag", is_unary := true, unary_op := "IS_NOT_NULL",
    is_equality := true }

/-- An equality-class candidate filter on `status`. -/
def eqFilterExample : PushFilter :=
  { field_path := "status", firestore_op := "EQUAL", is_equality := true,
    firestore_value := .strV "open" }

/-- The `value` array of a canonical vector envelope. -/
def vectorEnvelopeValues (v : FsValue) : Option (List FsValue) :=
  match v with
  | .mapV fs =>
      match lookupField fs "value" with
      | some (.arrV vs) => some vs
      | _ => none
  | _ => none

/-- The classification the code actually implements: a candidate filter is
equality-class iff its operator is `EQUAL`, `NOT_EQUAL` or `IN`, or it is a
unary filter (`IS_NULL` or `IS_NOT_NULL`). -/
def amendedEqualityClass (f : PushFilter) : Bool :=
  (["EQUAL", "NOT_EQUAL", "IN"].contains f.firestore_op) || f.is_unary

/-- The spec's classification, written from the spec's words for the
refinement comparison: equality-class iff op ∈ {=, IN} or the unary
operator is IS_NULL. -/
def specEqualityClass (f : PushFilter) : Bool :=
  (f.firestore_op == "EQUAL") || (f.firestore_op == "IN") ||
  (f.is_unary && f.unary_op == "IS_NULL")

/-- An always-denying batch endpoint (as an emulator under API-key auth). -/
def c5bf : List String → Bool := fun _ => true

/-- Per-document outcomes: `u2` is missing, the others succeed. -/
def c5indiv : String → IndivOutcome :=
  fun i => if i = "u2" then .notFound else .ok

/-- The variant a field shows in the first sampled document that contains
it — what `InferSchema`'s insert-if-absent store keeps. -/
def firstSeenVariant (docs : List (List (String × FsValue)))
    (field : String) : Option String :=
  docs.foldl (fun acc fields =>
    match acc with
    | some t => some t
    | none => (lookupField fields field).map clientFieldTypeName) none

/-- Count of a given envelope variant among a field's occurrences over the
whole sample — the quantity the spec's majority rule compares. -/
def variantCount (docs : List (List (String × FsValue)))
    (field variant : String) : Nat :=
  docs.foldl (fun n fields =>
    match lookupField fields field with
    | some v => if getFirestoreTypeName v = variant then n + 1 else n
    | none => n) 0

/-- A sample in which `f` is an integer once and a string twice. -/
def c3docs : List (List (String × FsValue)) :=
  [[("f", .intNumV 1)], [("f", .strV "x")], [("f", .strV "y")]]

/-- A sample in which `g` is an integer once and a string once — a tie. -/
def c3tie : List (List (String × FsValue)) :=
  [[("g", .intNumV 1)], [("g", .strV "x")]]

/-- The `std::map` key invariant: strictly ascending keys. -/
def SortedKeys {α : Type} (m : List (String × α)) : Prop :=
  m.Pairwise (fun a b => strLtb a.1 b.1 = true)

/-- A backend with an unbounded collection: every `runQuery` page is full
(`query_page_size` documents, 1000 by default), with a continuation token. -/
def c2oracle : ScanOracle :=
  { pages := fun _ => { docs := 1000 } }

/-- The global scan state `FirestoreScanInitGlobal` builds for a scan with
`limit 1500` against that backend. -/
def c2init : ScanGlobal := initGlobalRunQuery (some 1500) c2oracle

/-! ## Helper lemmas -/

/-- Erasing a key leaves no entry under that key. -/
theorem cacheFind?_erase (key : String) (c : SchemaCache) :
    cacheFind? key (cacheErase key c) = none := by
  induction c with
  | nil => rfl
  | cons p rest ih =>
      by_cases hp : p.1 = key
      · rw [show cacheErase key (p :: rest) = cacheErase key rest by
              simp [cacheErase, List.filter_cons, hp]]
        exact ih
      · rw [show cacheErase key (p :: rest) = p :: cacheErase key rest by
              simp [cacheErase, List.filter_cons, hp]]
        simpa [cacheFind?, List.find?, hp] using ih

/-- A successful `comparisonOp` links the emitted operator name and the
`is_equality` flag: the flag is set exactly for `EQUAL`, `NOT_EQUAL` and
`IN`-class operators. -/
theorem comparisonOp_spec (ct : CompareType) (op : String) (isEq : Bool)
    (hcmp : comparisonOp ct = some (op, isEq)) :
    isEq = (["EQUAL", "NOT_EQUAL", "IN"].contains op) := by
  cases ct <;> simp [comparisonOp] at hcmp <;>
    · obtain ⟨h1, h2⟩ := hcmp
      subst h1; subst h2; decide

/-! ## C4 — the filter-pushdown hook leaves the expression vector intact -/

/-- C4: for every set of filter expressions handed to the scan's
filter-pushdown hook, the hook returns the vector of filter expressions
unchanged — it removes no expression, however many candidate filters were
matched for remote pushdown — so every original predicate remains for local
re-evaluation by the host. -/
theorem c4_hook_preserves_filters (h : Host) (get : LogicalGetInfo)
    (bindData : ScanBindData) (filters : List BExpr) :
    (firestoreComplexFilterPushdown h get bindData filters).2.2 = filters := by
  unfold firestoreComplexFilterPushdown
  cases bindData.index_cache with
  | none => rfl
  | some ic =>
      cases hic : ic.fetch_succeeded <;> simp [hic]

/-- C4 witness: the hook applied to one concrete conjunction over a bound
collection with a fetched index cache. -/
theorem c4_hook_preserves_filters_witness :
    (firestoreComplexFilterPushdown oracleHost
      { table_index := 0, names := ["__document_id", "status"],
        returned_types := [.varchar, .varchar], column_ids := [1] }
      { collection := "orders", index_cache := some (indexCacheOfFetch .failed) }
      [.cmp .eq (.colRef 0 0) (.constE (.varcharV "open"))]).2.2 =
    [.cmp .eq (.colRef 0 0) (.constE (.varcharV "open"))] :=
  c4_hook_preserves_filters oracleHost
    { table_index := 0, names := ["__document_id", "status"],
      returned_types := [.varchar, .varchar], column_ids := [1] }
    { collection := "orders", index_cache := some (indexCacheOfFetch .failed) }
    [.cmp .eq (.colRef 0 0) (.constE (.varcharV "open"))]

/-! ## C6 — behaviour of the client on HTTP 401 -/

/-- C6 counterexample: a call whose (first) response is 401 performs exactly
one HTTP request and zero token refreshes, leaves the credential's token
marked valid, and surfaces an auth-category error immediately — there is no
token invalidation, no inline refresh, and no retry, so the claim's
"exactly one inline refresh followed by a retry; only a second 401
surfaces" is false on the first 401 already. -/
theorem c6_counterexample :
    makeRequest { isServiceAccount := true, tokenValid := true } (some 401) =
      ({ isServiceAccount := true, tokenValid := true },
       { httpRequests := 1, tokenRefreshes := 0 },
       .error .auth) ∧
    ({ httpRequests := 1, tokenRefreshes := 0 } : RequestTrace).httpRequests ≠ 2 := by
  exact ⟨rfl, by decide⟩

/-- C6 amended: a 401 response surfaces immediately as an auth-category
error (`AUTH_TOKEN_EXPIRED`) out of a single HTTP request; the 401 triggers
no refresh, no retry and no token invalidation.  The only refresh is the
proactive one at call start, performed exactly when the credential is a
service account whose token is invalid. -/
theorem c6_401_immediate_auth_error (c : Credentials) :
    makeRequest c (some 401) =
      ((refreshTokenIfNeeded c).1,
       { httpRequests := 1, tokenRefreshes := (refreshTokenIfNeeded c).2 },
       .error .auth) ∧
    (refreshTokenIfNeeded c).2 =
      (if c.isServiceAccount ∧ ¬ c.tokenValid then 1 else 0) ∧
    (c.tokenValid = true → (makeRequest c (some 401)).1 = c) := by
  refine ⟨rfl, ?_, ?_⟩
  · unfold refreshTokenIfNeeded
    cases hsa : c.isServiceAccount <;> cases htv : c.tokenValid <;>
      simp [hsa, htv]
  · intro htv
    have h401 : handleErrorStatus 401 = some .auth := by decide
    unfold makeRequest refreshTokenIfNeeded
    cases hsa : c.isServiceAccount <;> simp [hsa, htv, h401]

/-- C6 amended witness: an API-key credential receiving 401. -/
theorem c6_401_immediate_auth_error_witness :
    makeRequest { isServiceAccount := false, tokenValid := true } (some 401) =
      ((refreshTokenIfNeeded { isServiceAccount := false, tokenValid := true }).1,
       { httpRequests := 1,
         tokenRefreshes :=
           (refreshTokenIfNeeded { isServiceAccount := false, tokenValid := true }).2 },
       .error .auth) ∧
    (makeRequest { isServiceAccount := false, tokenValid := true } (some 401)).1 =
      { isServiceAccount := false, tokenValid := true } :=
  ⟨(c6_401_immediate_auth_error { isServiceAccount := false, tokenValid := true }).1,
   (c6_401_immediate_auth_error { isServiceAccount := false, tokenValid := true }).2.2 rfl⟩

/-! ## C9 — index-fetch failure keeps pushdown permitted -/

/-- C9: when fetching index metadata fails during bind, the resulting index
catalog has `fetch_succeeded = true` and assumes default single-field
indexing is enabled, so filter pushdown stays permitted: a non-empty set of
equality-class candidate filters is matched and pushed in full rather than
pushdown being disabled for the scan. -/
theorem c9_fetch_failure_keeps_pushdown (cands : List PushFilter) (cg : Bool)
    (hne : cands ≠ [])
    (heq : ∀ pf ∈ cands, inEqualityClass pf = true) :
    (indexCacheOfFetch .failed).fetch_succeeded = true ∧
    (indexCacheOfFetch .failed).default_single_field_enabled = true ∧
    matchFiltersToIndexes cands (indexCacheOfFetch .failed) cg =
      { pushed_filters := cands } ∧
    (matchFiltersToIndexes cands (indexCacheOfFetch .failed) cg).hasPushdown = true := by
  have hfe : cands.filter inEqualityClass = cands :=
    List.filter_eq_self.mpr heq
  have hfr : cands.filter (fun f => !inEqualityClass f) = [] := by
    rw [List.filter_eq_nil_iff]
    intro a ha
    simp [heq a ha]
  have hempty : cands.isEmpty = false := by
    cases cands with
    | nil => exact absurd rfl hne
    | cons a l => rfl
  have hmain : matchFiltersToIndexes cands (indexCacheOfFetch .failed) cg =
      { pushed_filters := cands } := by
    unfold matchFiltersToIndexes
    simp only [indexCacheOfFetch, hempty, Bool.not_true, Bool.false_eq_true,
      if_neg, if_false, Bool.not_false]
    rw [hfr, hfe]
    cases cands with
    | nil => exact absurd rfl hne
    | cons a l =>
        simp only []
        congr 1
        exact List.filter_eq_self.mpr (fun x _ => rfl)
  refine ⟨rfl, rfl, hmain, ?_⟩
  rw [hmain]
  simp [FilterResult.hasPushdown, hempty]

/-- C9 witness: a single pushed equality filter on `status` under a
failed-fetch catalog. -/
theorem c9_fetch_failure_keeps_pushdown_witness :
    matchFiltersToIndexes [eqFilterExample] (indexCacheOfFetch .failed) false =
      { pushed_filters := [eqFilterExample] } :=
  (c9_fetch_failure_keeps_pushdown [eqFilterExample] false (by simp)
    (by intro pf hpf; rw [List.mem_singleton] at hpf; subst hpf; rfl)).2.2.1

/-! ## C10 — NULL elements of fixed-size double arrays encode as 0.0 -/

/-- C10: encoding a (non-NULL) fixed-size `ARRAY(DOUBLE, N)` value produces
the canonical vector envelope, and every NULL element of the array is
emitted as `doubleValue 0.0` rather than as a null envelope — NULL elements
inside vector columns are not preserved by encode. -/
theorem c10_array_null_elements_become_zero (h : Host) (ety aty : DuckType)
    (n : Nat) (elems : List DValue) (i : Nat) (e : DValue)
    (hget : elems.get? i = some e) (hnull : e.isNull = true) :
    isFirestoreVector
      (duckDBValueToFirestore h (.arrayV ety elems) (.array aty n)) = true ∧
    vectorEnvelopeValues
      (duckDBValueToFirestore h (.arrayV ety elems) (.array aty n)) =
      some (elems.map (fun el => if el.isNull then .dblV 0 else .dblV el.getDouble)) ∧
    (elems.map (fun el =>
        if el.isNull then FsValue.dblV 0 else .dblV el.getDouble)).get? i =
      some (.dblV 0) ∧
    isFirestoreNull (.dblV 0) = false := by
  have henc : duckDBValueToFirestore h (.arrayV ety elems) (.array aty n) =
      .mapV [("__type__", .strV "__vector__"),
             ("value", .arrV (elems.map (fun el =>
                if el.isNull then .dblV 0 else .dblV el.getDouble)))] := by
    unfold duckDBValueToFirestore
    rfl
  refine ⟨?_, ?_, ?_, rfl⟩
  · rw [henc]; rfl
  · rw [henc]; rfl
  · rw [List.get?_eq_getElem?, List.getElem?_map,
        ← List.get?_eq_getElem?, hget]
    simp [hnull]

/-- C10 witness: a two-element `ARRAY(DOUBLE, 2)` whose first element is
NULL encodes it as `doubleValue 0`. -/
theorem c10_array_null_elements_become_zero_witness :
    vectorEnvelopeValues
      (duckDBValueToFirestore oracleHost
        (.arrayV .double [.nullV .double, .doubleV 2]) (.array .double 2)) =
      some [.dblV 0, .dblV 2] ∧
    ([FsValue.dblV 0, FsValue.dblV 2]).get? 0 = some (.dblV 0) :=
  ⟨by
    have := (c10_array_null_elements_become_zero oracleHost .double .double 2
      [.nullV .double, .doubleV 2] 0 (.nullV .double) rfl rfl).2.1
    simpa [DValue.isNull, DValue.getDouble] using this,
   rfl⟩

/-! ## C8 — empty inference raises NOT_FOUND_COLLECTION and caches nothing -/

/-- C8: whenever a scan bind reaches schema inference (no fresh non-empty
cache hit) and inference returns an empty column list, the bind raises
`NOT_FOUND_COLLECTION` and the schema cache ends up without an entry for the
collection: no empty entry is inserted, and a previously cached empty entry
has been removed rather than reused. -/
theorem c8_empty_schema_not_cached (cache : SchemaCache) (key : String)
    (fetch : FetchOutcome)
    (hreach : bindReachesInference cache key = true) :
    (firestoreScanBind cache key [] fetch).2 = .error "NOT_FOUND_COLLECTION" ∧
    cacheFind? key (firestoreScanBind cache key [] fetch).1 = none := by
  have herase := cacheFind?_erase key cache
  unfold firestoreScanBind
  unfold bindReachesInference at hreach
  cases hfind : cacheFind? key cache with
  | none =>
      dsimp only
      exact ⟨rfl, by simpa [bindInferPath] using hfind⟩
  | some entry =>
      rw [hfind] at hreach
      dsimp only at hreach
      dsimp only
      cases hexp : entry.expired with
      | true =>
          rw [if_neg (by simp)]
          exact ⟨rfl, by simpa [bindInferPath] using herase⟩
      | false =>
          rw [hexp] at hreach
          simp only [Bool.false_or] at hreach
          simp only [Bool.not_false, if_true, hreach]
          exact ⟨rfl, by simpa [bindInferPath] using herase⟩

/-- C8 witness: a cache holding a fresh but empty entry for the key — the
bind erases it, re-infers, raises, and leaves no entry behind. -/
theorem c8_empty_schema_not_cached_witness :
    (firestoreScanBind [("p:c", { schema := [], expired := false })] "p:c" []
        .failed).2 = .error "NOT_FOUND_COLLECTION" ∧
    cacheFind? "p:c"
      (firestoreScanBind [("p:c", { schema := [], expired := false })] "p:c" []
        .failed).1 = none :=
  c8_empty_schema_not_cached [("p:c", { schema := [], expired := false })]
    "p:c" .failed rfl

/-! ## C1 — the equality/inequality classification of candidate filters -/

mutual

/-- Every filter built by `ConvertDuckDBFilter` is classified by
`is_equality || is_unary` exactly as `amendedEqualityClass` describes. -/
theorem convertDuckDBFilter_classification (h : Host) (fn : String)
    (ft : DuckType) : (tf : TableFilter) →
    ∀ pf ∈ convertDuckDBFilter h fn ft tf,
      inEqualityClass pf = amendedEqualityClass pf
  | .constantComparison cmp c => by
      intro pf hpf
      cases hcmp : comparisonOp cmp with
      | none => simp [convertDuckDBFilter, hcmp] at hpf
      | some p =>
          obtain ⟨op, isEq⟩ := p
          simp only [convertDuckDBFilter, hcmp, List.mem_singleton] at hpf
          subst hpf
          have hspec := comparisonOp_spec cmp op isEq hcmp
          simp [inEqualityClass, amendedEqualityClass, hspec]
  | .isNullF => by
      intro pf hpf
      simp only [convertDuckDBFilter, List.mem_singleton] at hpf
      subst hpf
      rfl
  | .isNotNullF => by
      intro pf hpf
      simp only [convertDuckDBFilter, List.mem_singleton] at hpf
      subst hpf
      rfl
  | .conjunctionAnd children => by
      intro pf hpf
      rw [show convertDuckDBFilter h fn ft (.conjunctionAnd children) =
            convertDuckDBFilterChildren h fn ft children by
          simp [convertDuckDBFilter]] at hpf
      exact convertDuckDBFilterChildren_classification h fn ft children pf hpf
  | .other => by
      intro pf hpf
      simp [convertDuckDBFilter] at hpf

/-- The child-loop version of the previous lemma. -/
theorem convertDuckDBFilterChildren_classification (h : Host) (fn : String)
    (ft : DuckType) : (l : List TableFilter) →
    ∀ pf ∈ convertDuckDBFilterChildren h fn ft l,
      inEqualityClass pf = amendedEqualityClass pf
  | [] => by
      intro pf hpf
      simp [convertDuckDBFilterChildren] at hpf
  | c :: rest => by
      intro pf hpf
      rw [show convertDuckDBFilterChildren h fn ft (c :: rest) =
            convertDuckDBFilter h fn ft c ++
            convertDuckDBFilterChildren h fn ft rest by
          simp [convertDuckDBFilterChildren]] at hpf
      rcases List.mem_append.mp hpf with hl | hr
      · exact convertDuckDBFilter_classification h fn ft c pf hl
      · exact convertDuckDBFilterChildren_classification h fn ft rest pf hr

end

mutual

/-- Every filter built by `ConvertExpressionToFilters` is classified by
`is_equality || is_unary` exactly as `amendedEqualityClass` describes. -/
theorem convertExpressionToFilters_classification (h : Host) (ti : Nat)
    (ns : List String) (ts : List DuckType) (cm : List Nat) : (ex : BExpr) →
    ∀ pf ∈ convertExpressionToFilters h ti ns ts cm ex,
      inEqualityClass pf = amendedEqualityClass pf
  | .conjAnd children => by
      intro pf hpf
      rw [show convertExpressionToFilters h ti ns ts cm (.conjAnd children) =
            convertExpressionChildren h ti ns ts cm children by
          simp [convertExpressionToFilters]] at hpf
      exact convertExpressionChildren_classification h ti ns ts cm children pf hpf
  | .conjOr children => by
      intro pf hpf
      by_cases hemp : children.isEmpty
      · simp [convertExpressionToFilters, hemp] at hpf
      · rcases hcol : orEqualitiesCollect h ti ns ts cm children "" .varchar []
          with _ | ⟨cf, vals⟩
        · simp [convertExpressionToFilters, hemp, hcol] at hpf
        · by_cases h30 : vals.length > 30
          · simp [convertExpressionToFilters, hemp, hcol, h30] at hpf
          · simp only [convertExpressionToFilters, hemp, hcol, h30,
              Bool.false_eq_true, if_false, if_neg, List.mem_singleton] at hpf
            subst hpf
            rfl
  | .isNullE children => by
      intro pf hpf
      match children with
      | [.colRef t c] =>
          rcases hrc : resolveColumn ti ns ts cm t c with _ | ⟨fn, ft⟩
          · simp [convertExpressionToFilters, hrc] at hpf
          · simp only [convertExpressionToFilters, hrc,
              List.mem_singleton] at hpf
            subst hpf
            rfl
      | [] => simp [convertExpressionToFilters] at hpf
      | (.constE v) :: _ => simp [convertExpressionToFilters] at hpf
      | .otherE :: _ => simp [convertExpressionToFilters] at hpf
      | x :: y :: rest => simp [convertExpressionToFilters] at hpf
  | .isNotNullE children => by
      intro pf hpf
      match children with
      | [.colRef t c] =>
          rcases hrc : resolveColumn ti ns ts cm t c with _ | ⟨fn, ft⟩
          · simp [convertExpressionToFilters, hrc] at hpf
          · simp only [convertExpressionToFilters, hrc,
              List.mem_singleton] at hpf
            subst hpf
            rfl
      | [] => simp [convertExpressionToFilters] at hpf
      | (.constE v) :: _ => simp [convertExpressionToFilters] at hpf
      | .otherE :: _ => simp [convertExpressionToFilters] at hpf
      | x :: y :: rest => simp [convertExpressionToFilters] at hpf
  | .cmp cmpTy l r => by
      intro pf hpf
      rcases hec : extractColConst l r with _ | ⟨t, c, v, rev⟩
      · simp [convertExpressionToFilters, hec] at hpf
      · rcases hrc : resolveColumn ti ns ts cm t c with _ | ⟨fn, ft⟩
        · simp [convertExpressionToFilters, hec, hrc] at hpf
        · rcases hop : comparisonOp (if rev then flipComparison cmpTy else cmpTy)
            with _ | ⟨op, isEq⟩
          · simp [convertExpressionToFilters, hec, hrc, hop] at hpf
          · simp only [convertExpressionToFilters, hec, hrc, hop,
              List.mem_singleton] at hpf
            subst hpf
            have hspec := comparisonOp_spec _ op isEq hop
            simp [inEqualityClass, amendedEqualityClass, hspec]
  | .other => by
      intro pf hpf
      simp [convertExpressionToFilters] at hpf

/-- The child-loop version of the previous lemma. -/
theorem convertExpressionChildren_classification (h : Host) (ti : Nat)
    (ns : List String) (ts : List DuckType) (cm : List Nat) :
    (l : List BExpr) →
    ∀ pf ∈ convertExpressionChildren h ti ns ts cm l,
      inEqualityClass pf = amendedEqualityClass pf
  | [] => by
      intro pf hpf
      simp [convertExpressionChildren] at hpf
  | c :: rest => by
      intro pf hpf
      rw [show convertExpressionChildren h ti ns ts cm (c :: rest) =
            convertExpressionToFilters h ti ns ts cm c ++
            convertExpressionChildren h ti ns ts cm rest by
          simp [convertExpressionChildren]] at hpf
      rcases List.mem_append.mp hpf with hl | hr
      · exact convertExpressionToFilters_classification h ti ns ts cm c pf hl
      · exact convertExpressionChildren_classification h ti ns ts cm rest pf hr

end

/-- C1 counterexample: `ConvertDuckDBFilter` flags a `NOT_EQUAL` comparison
with `is_equality = true`, and likewise a unary `IS_NOT_NULL` filter, so
both land on the equality side of the claim's partition even though the
claim classes them as inequality-class; `MatchFiltersToIndexes` then pushes
the lone NOT_EQUAL filter through the equality-only rule. -/
theorem c1_counterexample :
    convertDuckDBFilter oracleHost "amount" .bigint
        (.constantComparison .neq (.bigintV 100)) = [neqFilterExample] ∧
    inEqualityClass neqFilterExample = true ∧
    specEqualityClass neqFilterExample = false ∧
    convertDuckDBFilter oracleHost "tag" .varchar .isNotNullF =
      [isNotNullFilterExample] ∧
    inEqualityClass isNotNullFilterExample = true ∧
    specEqualityClass isNotNullFilterExample = false ∧
    (matchFiltersToIndexes [neqFilterExample] (indexCacheOfFetch .failed)
        false).pushed_filters = [neqFilterExample] := by
  refine ⟨?_, rfl, rfl, ?_, rfl, rfl, rfl⟩
  · simp [convertDuckDBFilter, comparisonOp, neqFilterExample]
    unfold duckDBValueToFirestore
    rfl
  · simp [convertDuckDBFilter, isNotNullFilterExample]

/-- C1 (amended): every candidate filter built by the planner's two
converters is equality-class (in the partition sense used at
firestore_index.cpp:236, `is_equality || is_unary`) iff its operator is
`EQUAL`, `NOT_EQUAL` or `IN`, or it is unary (`IS_NULL` or `IS_NOT_NULL`);
only the range operators `<`, `≤`, `>`, `≥` are inequality-class.
`MatchFiltersToIndexes` partitions candidates into E and R by exactly this
predicate. -/
theorem c1_equality_classification :
    (∀ (h : Host) (fn : String) (ft : DuckType) (tf : TableFilter),
        ∀ pf ∈ convertDuckDBFilter h fn ft tf,
          inEqualityClass pf = amendedEqualityClass pf) ∧
    (∀ (h : Host) (ti : Nat) (ns : List String) (ts : List DuckType)
        (cm : List Nat) (ex : BExpr),
        ∀ pf ∈ convertExpressionToFilters h ti ns ts cm ex,
          inEqualityClass pf = amendedEqualityClass pf) ∧
    (∀ (cands : List PushFilter) (pf : PushFilter), pf ∈ cands →
        (pf ∈ cands.filter inEqualityClass ↔ inEqualityClass pf = true) ∧
        (pf ∈ cands.filter (fun f => !inEqualityClass f) ↔
          inEqualityClass pf = false)) := by
  refine ⟨?_, ?_, ?_⟩
  · intro h fn ft tf
    exact convertDuckDBFilter_classification h fn ft tf
  · intro h ti ns ts cm ex
    exact convertExpressionToFilters_classification h ti ns ts cm ex
  · intro cands pf hmem
    constructor
    · simp [List.mem_filter, hmem]
    · simp [List.mem_filter, hmem]

/-- C1 amended witness: the classification at the concrete NOT_EQUAL
candidate produced for `amount <> 100`. -/
theorem c1_equality_classification_witness :
    inEqualityClass neqFilterExample = amendedEqualityClass neqFilterExample :=
  c1_equality_classification.1 oracleHost "amount" .bigint
    (.constantComparison .neq (.bigintV 100)) neqFilterExample
    (by
      have hconv : convertDuckDBFilter oracleHost "amount" .bigint
          (.constantComparison .neq (.bigintV 100)) = [neqFilterExample] := by
        simp [convertDuckDBFilter, comparisonOp, neqFilterExample]
        unfold duckDBValueToFirestore
        rfl
      rw [hconv]
      exact List.mem_singleton.mpr rfl)

/-! ## C7 — per-value parse failures in decode -/

/-- C7 counterexample: an unparsable `timestampValue` decodes to the raw
wire string — a non-null substitute value — and an undecodable base64
`bytesValue` decodes to a blob holding the encoded text as-is; moreover an
unparsable `integerValue` string inside a vector envelope makes decode
throw.  All three contradict "decode yields null for that value and does
not throw". -/
theorem c7_counterexample :
    firestoreValueToDuckDB oracleHost (.tsV "not-a-timestamp") .timestamp =
      .ok (.varcharV "not-a-timestamp") ∧
    (DValue.varcharV "not-a-timestamp").isNull = false ∧
    firestoreValueToDuckDB oracleHost (.bytesV "!!bad-base64!!") .blob =
      .ok (.blobV "!!bad-base64!!") ∧
    (DValue.blobV "!!bad-base64!!").isNull = false ∧
    firestoreValueToDuckDB oracleHost
        (.mapV [("__type__", .strV "__vector__"),
                ("value", .arrV [.intStrV "twelve"])])
        (.array .double 1) =
      .error "std::stod: invalid integerValue inside vector" := by
  refine ⟨?_, rfl, ?_, rfl, ?_⟩
  · unfold firestoreValueToDuckDB
    rfl
  · unfold firestoreValueToDuckDB
    rfl
  · unfold firestoreValueToDuckDB
    rfl

/-- C7 (amended): per-value parse failures do not uniformly yield null.
An unparsable `integerValue` string decodes to NULL without throwing; an
unparsable `timestampValue` decodes to the raw wire string, a non-null
substitute; an undecodable `bytesValue` decodes to a blob holding the
base64 text as-is; and an unparsable `integerValue` string inside a vector
envelope makes decode throw. -/
theorem c7_parse_failure_behaviour (h : Host) (s b ts : String)
    (target : DuckType) :
    (stollOpt s = none →
      firestoreValueToDuckDB h (.intStrV s) target = .ok (.nullV target)) ∧
    (h.parseTimestamp (replaceFirstTBySpace (dropTrailingZ ts)) = none →
      firestoreValueToDuckDB h (.tsV ts) target = .ok (.varcharV ts)) ∧
    (h.b64decode b = none →
      firestoreValueToDuckDB h (.bytesV b) target = .ok (.blobV b)) ∧
    (stodOpt s = none →
      firestoreValueToDuckDB h
          (.mapV [("__type__", .strV "__vector__"),
                  ("value", .arrV [.intStrV s])]) target =
        .error "std::stod: invalid integerValue inside vector") := by
  refine ⟨?_, ?_, ?_, ?_⟩ <;> intro hp
  · simp [firestoreValueToDuckDB, hp]
  · simp [firestoreValueToDuckDB, hp]
  · simp [firestoreValueToDuckDB, base64Decode, hp]
  · simp [firestoreValueToDuckDB, isFirestoreVector, lookupField,
      decodeVectorElems, decodeVectorElem, hp]
    rfl

/-- C7 amended witness: the four behaviours at concrete unparsable
payloads under a host whose parsers reject them. -/
theorem c7_parse_failure_behaviour_witness :
    firestoreValueToDuckDB oracleHost (.intStrV "abc") .bigint =
      .ok (.nullV .bigint) ∧
    firestoreValueToDuckDB oracleHost (.tsV "junk") .timestamp =
      .ok (.varcharV "junk") ∧
    firestoreValueToDuckDB oracleHost (.bytesV "%%") .blob =
      .ok (.blobV "%%") ∧
    firestoreValueToDuckDB oracleHost
        (.mapV [("__type__", .strV "__vector__"),
                ("value", .arrV [.intStrV "abc"])]) (.list .double) =
      .error "std::stod: invalid integerValue inside vector" :=
  ⟨(c7_parse_failure_behaviour oracleHost "abc" "%%" "junk" .bigint).1 rfl,
   (c7_parse_failure_behaviour oracleHost "abc" "%%" "junk" .timestamp).2.1 rfl,
   (c7_parse_failure_behaviour oracleHost "abc" "%%" "junk" .blob).2.2.1 rfl,
   (c7_parse_failure_behaviour oracleHost "abc" "%%" "junk"
     (.list .double)).2.2.2 rfl⟩

/-! ## C5 — batch writes: count bound, permanent downgrade, NOT_FOUND -/

/-- Membership in `dropLast` implies membership. -/
theorem mem_of_mem_dropLast {α : Type} {a : α} {l : List α}
    (h : a ∈ l.dropLast) : a ∈ l :=
  (List.dropLast_sublist l).subset h

/-- The individual-fallback loop only errors on a fatal outcome, and its
result exceeds the incoming count by at most the group size. -/
theorem processIndividually_ok_bound (indiv : String → IndivOutcome) :
    ∀ (l : List String) (count c : Nat),
      processIndividually indiv l count = .ok c → c ≤ count + l.length := by
  intro l
  induction l with
  | nil =>
      intro count c hc
      simp only [processIndividually, Except.ok.injEq] at hc
      omega
  | cons id rest ih =>
      intro count c hc
      simp only [processIndividually] at hc
      cases hiv : indiv id <;> rw [hiv] at hc
      · have := ih (count + 1) c hc
        simp only [List.length_cons]
        omega
      · have := ih count c hc
        simp only [List.length_cons]
        omega
      · exact absurd hc (by simp)

/-- Without fatal outcomes the individual-fallback loop always succeeds. -/
theorem processIndividually_no_fatal (indiv : String → IndivOutcome)
    (hnf : ∀ i, indiv i ≠ .fatal) :
    ∀ (l : List String) (count : Nat),
      ∃ c, processIndividually indiv l count = .ok c := by
  intro l
  induction l with
  | nil => intro count; exact ⟨count, rfl⟩
  | cons id rest ih =>
      intro count
      cases hiv : indiv id with
      | ok =>
          obtain ⟨c, hc⟩ := ih (count + 1)
          exact ⟨c, by simp only [processIndividually, hiv]; exact hc⟩
      | notFound =>
          obtain ⟨c, hc⟩ := ih count
          exact ⟨c, by simp only [processIndividually, hiv]; exact hc⟩
      | fatal => exact absurd hiv (hnf id)

/-- Exact count of the individual-fallback loop: each ok outcome adds one
to the count, each not-found adds nothing. -/
theorem processIndividually_exact (indiv : String → IndivOutcome)
    (hnf : ∀ i, indiv i ≠ .fatal) :
    ∀ (l : List String) (count : Nat),
      processIndividually indiv l count =
        .ok (count + l.countP (fun i => decide (indiv i = .ok))) := by
  intro l
  induction l with
  | nil => intro count; simp [processIndividually]
  | cons id rest ih =>
      intro count
      cases hiv : indiv id with
      | ok =>
          have hcnt : (id :: rest).countP (fun i => decide (indiv i = .ok)) =
              rest.countP (fun i => decide (indiv i = .ok)) + 1 := by
            simp [List.countP_cons, hiv]
          simp only [processIndividually, hiv, hcnt, ih (count + 1)]
          congr 1
          omega
      | notFound =>
          have hcnt : (id :: rest).countP (fun i => decide (indiv i = .ok)) =
              rest.countP (fun i => decide (indiv i = .ok)) := by
            simp [List.countP_cons, hiv]
          simp only [processIndividually, hiv, hcnt, ih count]
      | fatal => exact absurd hiv (hnf id)

/-- Invariant of the batch loop: without fatal outcomes it succeeds, the
count grows by at most one per document id, in individual mode the batch
trace is frozen and the count grows by exactly the number of ok outcomes,
in batch mode every attempted group except possibly the final one passed,
and when every batch attempt is denied the count grows by exactly the
number of ok outcomes over the buffered and remaining ids. -/
theorem batchOpsLoop_invariant (bf : List String → Bool)
    (indiv : String → IndivOutcome) (hnf : ∀ i, indiv i ≠ .fatal) :
    ∀ (rem writes : List String) (u : Bool) (count : Nat)
      (trace : List (List String)),
      ∃ c tr, batchOpsLoop bf indiv rem writes u count trace = .ok (c, tr) ∧
        c ≤ count + rem.length + writes.length ∧
        (u = true → tr = trace) ∧
        (u = false → (∀ g ∈ trace, bf g = false) →
          ∀ g ∈ tr.dropLast, bf g = false) ∧
        (u = true →
          c = count + rem.countP (fun i => decide (indiv i = .ok))) ∧
        (u = false → (∀ g, bf g = true) → (writes = [] ∨ rem ≠ []) →
          c = count +
            (writes ++ rem).countP (fun i => decide (indiv i = .ok))) := by
  intro rem
  induction rem with
  | nil =>
      intro writes u count trace
      refine ⟨count, trace, rfl, by simp, fun _ => rfl, ?_, ?_, ?_⟩
      · intro _ hpre g hg
        exact hpre g (mem_of_mem_dropLast hg)
      · intro _; simp
      · intro _ _ hw
        rcases hw with hw | hw
        · subst hw; simp
        · exact absurd rfl hw
  | cons id rest ih =>
      intro writes u count trace
      cases u with
      | true =>
          cases hiv : indiv id with
          | ok =>
              obtain ⟨c, tr, hrun, hb, h3, _, h5, _⟩ :=
                ih writes true (count + 1) trace
              refine ⟨c, tr, ?_, ?_, h3, ?_, ?_, ?_⟩
              · simp only [batchOpsLoop, hiv, if_true]
                exact hrun
              · simp only [List.length_cons]; omega
              · intro hu; simp at hu
              · intro _
                have hcnt :
                    (id :: rest).countP (fun i => decide (indiv i = .ok)) =
                      rest.countP (fun i => decide (indiv i = .ok)) + 1 := by
                  simp [List.countP_cons, hiv]
                rw [h5 rfl, hcnt]
                omega
              · intro hu; simp at hu
          | notFound =>
              obtain ⟨c, tr, hrun, hb, h3, _, h5, _⟩ :=
                ih writes true count trace
              refine ⟨c, tr, ?_, ?_, h3, ?_, ?_, ?_⟩
              · simp only [batchOpsLoop, hiv, if_true]
                exact hrun
              · simp only [List.length_cons]; omega
              · intro hu; simp at hu
              · intro _
                have hcnt :
                    (id :: rest).countP (fun i => decide (indiv i = .ok)) =
                      rest.countP (fun i => decide (indiv i = .ok)) := by
                  simp [List.countP_cons, hiv]
                rw [h5 rfl, hcnt]
              · intro hu; simp at hu
          | fatal => exact absurd hiv (hnf id)
      | false =>
          by_cases hflush :
              (writes ++ [id]).length ≥ BATCH_SIZE ∨ rest.isEmpty = true
          · by_cases hbf : bf (writes ++ [id]) = true
            · have hproc := processIndividually_exact indiv hnf
                (writes ++ [id]) count
              have hb1 : count +
                  (writes ++ [id]).countP (fun i => decide (indiv i = .ok)) ≤
                    count + (writes ++ [id]).length := by
                have := List.countP_le_length
                  (fun i => decide (indiv i = .ok)) (l := writes ++ [id])
                omega
              obtain ⟨c, tr, hrun, hb, h3, _, h5, _⟩ :=
                ih [] true
                  (count +
                    (writes ++ [id]).countP (fun i => decide (indiv i = .ok)))
                  (trace ++ [writes ++ [id]])
              refine ⟨c, tr, ?_, ?_, ?_, ?_, ?_, ?_⟩
              · simp only [batchOpsLoop, Bool.false_eq_true, if_false,
                  if_pos hflush, if_pos hbf, hproc]
                exact hrun
              · simp only [List.length_cons, List.length_append,
                  List.length_singleton, List.length_nil] at hb1 hb ⊢
                omega
              · intro hu; simp at hu
              · intro _ hpre g hg
                rw [h3 rfl] at hg
                rw [List.dropLast_concat] at hg
                exact hpre g hg
              · intro hu; simp at hu
              · intro _ _ _
                rw [h5 rfl]
                simp only [List.countP_append, List.countP_cons,
                  List.countP_nil]
                omega
            · obtain ⟨c, tr, hrun, hb, _, h4, _, _⟩ :=
                ih [] false (count + (writes ++ [id]).length)
                  (trace ++ [writes ++ [id]])
              refine ⟨c, tr, ?_, ?_, ?_, ?_, ?_, ?_⟩
              · simp only [batchOpsLoop, Bool.false_eq_true, if_false,
                  if_pos hflush, if_neg hbf]
                exact hrun
              · simp only [List.length_cons, List.length_append,
                  List.length_singleton, List.length_nil] at hb ⊢
                omega
              · intro hu; simp at hu
              · intro _ hpre
                refine h4 rfl ?_
                intro g hg
                rcases List.mem_append.mp hg with hgl | hgr
                · exact hpre g hgl
                · rw [List.mem_singleton] at hgr
                  subst hgr
                  exact Bool.not_eq_true _ ▸ (by simpa using hbf)
              · intro hu; simp at hu
              · intro _ hall _
                exact absurd (hall (writes ++ [id])) hbf
          · obtain ⟨c, tr, hrun, hb, _, h4, _, h6⟩ :=
              ih (writes ++ [id]) false count trace
            refine ⟨c, tr, ?_, ?_, ?_, ?_, ?_, ?_⟩
            · simp only [batchOpsLoop, Bool.false_eq_true, if_false,
                if_neg hflush]
              exact hrun
            · simp only [List.length_cons, List.length_append,
                List.length_singleton, List.length_nil] at hb ⊢
              omega
            · intro hu; simp at hu
            · intro _ hpre
              exact h4 rfl hpre
            · intro hu; simp at hu
            · intro _ hall _
              have hrest : rest ≠ [] := by
                intro h
                subst h
                exact hflush (Or.inr rfl)
              rw [h6 rfl hall (Or.inr hrest)]
              simp [List.append_assoc]

/-- C5: every `update_batch`/`delete_batch` call on `n` document ids whose
per-document operations never fail fatally returns a count with
`count ≤ n` and never propagates a NOT_FOUND (the call still returns);
when every `BatchWrite` attempt is denied — so every id goes through the
per-operation fallback — the returned count is exactly the number of ids
whose individual operation succeeded: an ok id counts one and a NOT_FOUND
id counts zero; and the downgrade is permanent — in the trace of attempted
`BatchWrite` groups, every group except possibly the last passed, i.e.
after the first permission failure no further batch calls are attempted. -/
theorem c5_batch_count_and_downgrade (bf : List String → Bool)
    (indiv : String → IndivOutcome) (ids : List String)
    (hnf : ∀ i, indiv i ≠ .fatal) :
    ∃ c tr, runBatchOps bf indiv ids = .ok (c, tr) ∧ c ≤ ids.length ∧
      ((∀ g, bf g = true) →
        c = ids.countP (fun i => decide (indiv i = .ok))) ∧
      ∀ g ∈ tr.dropLast, bf g = false := by
  obtain ⟨c, tr, hrun, hb, _, h4, _, h6⟩ :=
    batchOpsLoop_invariant bf indiv hnf ids [] false 0 []
  refine ⟨c, tr, hrun, by simpa using hb, ?_, h4 rfl (by simp)⟩
  intro hall
  simpa using h6 rfl hall (Or.inl rfl)

/-- C5 witness: three ids against a batch endpoint that always denies
permission, with the middle id not found during the fallback — the call
returns `count = 2`: the NOT_FOUND id contributed zero. -/
theorem c5_batch_count_and_downgrade_witness :
    ∃ c tr, runBatchOps c5bf c5indiv ["u1", "u2", "u3"] = .ok (c, tr) ∧
      c ≤ 3 ∧ c = 2 ∧ ∀ g ∈ tr.dropLast, c5bf g = false := by
  obtain ⟨c, tr, hrun, hb, hex, hperm⟩ :=
    c5_batch_count_and_downgrade c5bf c5indiv ["u1", "u2", "u3"]
      (by intro i; unfold c5indiv; split <;> simp)
  refine ⟨c, tr, hrun, by simpa using hb, ?_, hperm⟩
  rw [hex (fun g => rfl)]
  rfl

/-! ## C3 — schema inference picks the first seen variant, not a majority -/

/-- C3 counterexample: on a sample where `f` carries `integerValue` once
and `stringValue` twice, the scan's schema inference
(`FirestoreClient::InferSchema`) yields BIGINT — the first seen variant,
not the majority — and reversing the sample order flips the answer to
VARCHAR, so the result does depend on which variant appears first.  Even
the (uncalled) majority-vote helper `InferSchemaFromDocuments` resolves an
exact tie to the lexicographically smallest variant name (`integerValue`),
not to string. -/
theorem c3_counterexample :
    (inferSchemaClient c3docs).map (fun p => (p.1, p.2.typeId)) =
      [("f", TypeId.bigint)] ∧
    (inferSchemaClient c3docs.reverse).map (fun p => (p.1, p.2.typeId)) =
      [("f", TypeId.varchar)] ∧
    variantCount c3docs "f" "stringValue" = 2 ∧
    variantCount c3docs "f" "integerValue" = 1 ∧
    (firestoreTypeToDuckDB "stringValue").typeId = TypeId.varchar ∧
    TypeId.bigint ≠ TypeId.varchar ∧
    (inferSchemaFromDocuments c3tie 100).map (fun c => (c.name, c.type.typeId)) =
      [("g", TypeId.bigint)] ∧
    variantCount c3tie "g" "stringValue" = variantCount c3tie "g" "integerValue" := by
  refine ⟨by decide, by decide, rfl, rfl, rfl, by decide, by decide, rfl⟩

/-- The key order is irreflexive. -/
theorem charsLtb_irrefl : ∀ x : List Char, charsLtb x x = false
  | [] => rfl
  | a :: as => by simp [charsLtb, charsLtb_irrefl as]

/-- A key strictly below another is a different key. -/
theorem strLtb_ne {a b : String} (h : strLtb a b = true) : a ≠ b := by
  intro he
  rw [he, strLtb, charsLtb_irrefl] at h
  exact Bool.false_ne_true h

/-- The key order is transitive. -/
theorem charsLtb_trans : ∀ x y z : List Char,
    charsLtb x y = true → charsLtb y z = true → charsLtb x z = true := by
  intro x
  induction x with
  | nil =>
      intro y z h1 h2
      cases z with
      | nil => simp [charsLtb] at h2
      | cons c cs => simp [charsLtb]
  | cons a as ih =>
      intro y z h1 h2
      cases y with
      | nil => simp [charsLtb] at h1
      | cons b bs =>
          cases z with
          | nil => simp [charsLtb] at h2
          | cons c cs =>
              simp only [charsLtb] at h1 h2 ⊢
              by_cases hab : a.toNat < b.toNat
              · by_cases hbc : b.toNat < c.toNat
                · simp [Nat.lt_trans hab hbc]
                · by_cases hcb : c.toNat < b.toNat
                  · simp [hbc, hcb] at h2
                  · have hac : a.toNat < c.toNat := by omega
                    simp [hac]
              · by_cases hba : b.toNat < a.toNat
                · simp [hab, hba] at h1
                · simp [hab, hba] at h1
                  by_cases hbc : b.toNat < c.toNat
                  · have hac : a.toNat < c.toNat := by omega
                    simp [hac]
                  · by_cases hcb : c.toNat < b.toNat
                    · simp [hbc, hcb] at h2
                    · simp [hbc, hcb] at h2
                      have hac : ¬ a.toNat < c.toNat := by omega
                      have hca : ¬ c.toNat < a.toNat := by omega
                      simp [hac, hca]
                      exact ih bs cs h1 h2

/-- Transitivity lifted to keys. -/
theorem strLtb_trans {a b c : String} (h1 : strLtb a b = true)
    (h2 : strLtb b c = true) : strLtb a c = true :=
  charsLtb_trans a.toList b.toList c.toList h1 h2

/-- Characters with the same code point are equal. -/
theorem char_eq_of_toNat_eq {a b : Char} (h : a.toNat = b.toNat) : a = b := by
  apply Char.eq_of_val_eq
  apply UInt32.ext
  exact h

/-- The key order is total: mutually not-below keys are equal. -/
theorem charsLtb_eq_of_both_false : ∀ x y : List Char,
    charsLtb x y = false → charsLtb y x = false → x = y
  | [], [] => fun _ _ => rfl
  | [], _ :: _ => fun h1 _ => by simp [charsLtb] at h1
  | _ :: _, [] => fun _ h2 => by simp [charsLtb] at h2
  | a :: as, b :: bs => fun h1 h2 => by
      simp only [charsLtb] at h1 h2
      by_cases hab : a.toNat < b.toNat
      · simp [hab] at h1
      · by_cases hba : b.toNat < a.toNat
        · simp [hba] at h2
        · simp [hab, hba] at h1 h2
          have hch : a = b := char_eq_of_toNat_eq (by omega)
          rw [hch, charsLtb_eq_of_both_false as bs h1 h2]

/-- Totality lifted to keys. -/
theorem strLtb_of_not_lt_ne {a b : String} (h1 : strLtb a b = false)
    (h2 : a ≠ b) : strLtb b a = true := by
  cases hb : strLtb b a with
  | true => rfl
  | false =>
      have := charsLtb_eq_of_both_false a.toList b.toList h1 hb
      exact absurd (String.ext (by simpa [String.toList] using this)) h2

/-- A key absent from every entry is not found. -/
theorem smapFind?_eq_none_of_forall_ne {α : Type} (k : String) :
    ∀ m : List (String × α), (∀ p ∈ m, p.1 ≠ k) → smapFind? k m = none
  | [], _ => rfl
  | (k', v) :: rest, hall => by
      have hk : k ≠ k' := fun h => hall (k', v) (List.mem_cons_self _ _) (h ▸ rfl)
      simp only [smapFind?, if_neg hk]
      exact smapFind?_eq_none_of_forall_ne k rest
        (fun p hp => hall p (List.mem_cons_of_mem _ hp))

/-- Altering one key leaves lookups of other keys unchanged. -/
theorem smapFind?_alter_ne {α : Type} (k k' : String) (f : Option α → α)
    (hne : k ≠ k') : ∀ m : List (String × α),
      smapFind? k (smapAlter k' f m) = smapFind? k m
  | [] => by simp [smapAlter, smapFind?, hne]
  | (k'', v) :: rest => by
      by_cases h1 : strLtb k' k'' = true
      · simp [smapAlter, h1, smapFind?, hne]
      · by_cases h2 : k' = k''
        · subst h2
          simp [smapAlter, h1, smapFind?, hne]
        · by_cases h3 : k = k''
          · simp [smapAlter, h1, h2, smapFind?, h3]
          · simp only [smapAlter, if_neg h1, if_neg h2, smapFind?, if_neg h3]
            exact smapFind?_alter_ne k k' f hne rest

/-- Every entry of an altered map is the altered key or an original
entry. -/
theorem mem_smapAlter {α : Type} (k : String) (f : Option α → α)
    (p : String × α) : ∀ m : List (String × α),
      p ∈ smapAlter k f m → p.1 = k ∨ p ∈ m
  | [] => by
      intro hp
      simp only [smapAlter, List.mem_singleton] at hp
      exact Or.inl (by rw [hp])
  | (k'', v) :: rest => by
      intro hp
      by_cases h1 : strLtb k k'' = true
      · simp only [smapAlter, if_pos h1, List.mem_cons] at hp
        rcases hp with h | h
        · exact Or.inl (by rw [h])
        · exact Or.inr (by simpa using h)
      · by_cases h2 : k = k''
        · simp only [smapAlter, if_neg h1, if_pos h2, List.mem_cons] at hp
          rcases hp with h | h
          · exact Or.inl (by rw [h, ← h2])
          · exact Or.inr (List.mem_cons_of_mem _ h)
        · simp only [smapAlter, if_neg h1, if_neg h2, List.mem_cons] at hp
          rcases hp with h | h
          · exact Or.inr (by simp [h])
          · rcases mem_smapAlter k f p rest h with h' | h'
            · exact Or.inl h'
            · exact Or.inr (List.mem_cons_of_mem _ h')

/-- `smapAlter` preserves the ascending-key invariant. -/
theorem sortedKeys_smapAlter {α : Type} (k : String) (f : Option α → α) :
    ∀ m : List (String × α), SortedKeys m → SortedKeys (smapAlter k f m)
  | [], _ => by simp [smapAlter, SortedKeys]
  | (k'', v) :: rest, hs => by
      rw [SortedKeys, List.pairwise_cons] at hs
      obtain ⟨hhead, hrest⟩ := hs
      by_cases h1 : strLtb k k'' = true
      · rw [smapAlter, if_pos h1, SortedKeys, List.pairwise_cons]
        constructor
        · intro b hb
          rcases List.mem_cons.mp hb with h | h
          · rw [h]; exact h1
          · exact strLtb_trans h1 (hhead b h)
        · rw [List.pairwise_cons]
          exact ⟨hhead, hrest⟩
      · by_cases h2 : k = k''
        · rw [smapAlter, if_neg h1, if_pos h2, SortedKeys, List.pairwise_cons]
          exact ⟨hhead, hrest⟩
        · rw [smapAlter, if_neg h1, if_neg h2, SortedKeys, List.pairwise_cons]
          constructor
          · intro b hb
            rcases mem_smapAlter k f b rest hb with h | h
            · rw [h]
              exact strLtb_of_not_lt_ne (Bool.not_eq_true _ ▸ h1)
                (fun he => h2 he)
            · exact hhead b h
          · exact sortedKeys_smapAlter k f rest hrest

/-- Lookup after altering the same key, on a sorted map: the stored value
is the altered one. -/
theorem smapFind?_alter_self {α : Type} (k : String) (f : Option α → α) :
    ∀ m : List (String × α), SortedKeys m →
      smapFind? k (smapAlter k f m) = some (f (smapFind? k m))
  | [], _ => by simp [smapAlter, smapFind?]
  | (k'', v) :: rest, hs => by
      rw [SortedKeys, List.pairwise_cons] at hs
      obtain ⟨hhead, hrest⟩ := hs
      by_cases h1 : strLtb k k'' = true
      · have hnone : smapFind? k ((k'', v) :: rest) = none := by
          apply smapFind?_eq_none_of_forall_ne
          intro p hp
          rcases List.mem_cons.mp hp with h | h
          · rw [h]; exact Ne.symm (strLtb_ne h1)
          · exact Ne.symm (strLtb_ne (strLtb_trans h1 (hhead p h)))
        rw [hnone, smapAlter, if_pos h1]
        simp [smapFind?]
      · by_cases h2 : k = k''
        · subst h2
          rw [smapAlter, if_neg h1, if_pos rfl]
          simp [smapFind?]
        · rw [smapAlter, if_neg h1, if_neg h2]
          rw [show smapFind? k ((k'', v) :: smapAlter k f rest) =
                smapFind? k (smapAlter k f rest) by
              simp [smapFind?, h2]]
          rw [show smapFind? k ((k'', v) :: rest) = smapFind? k rest by
              simp [smapFind?, h2]]
          exact smapFind?_alter_self k f rest hrest

/-- `clientScanField` only inserts the field's variant if absent; its
`field_types` component is exactly that insert. -/
theorem clientScanField_field_types (acc : ClientInferAcc) (fn : String)
    (v : FsValue) :
    (clientScanField acc fn v).field_types =
      smapInsertIfAbsent fn (clientFieldTypeName v) acc.field_types := by
  unfold clientScanField
  cases v <;> rfl

/-- `clientScanField` preserves the sorted-key invariant. -/
theorem clientScanField_sorted (acc : ClientInferAcc) (fn : String)
    (v : FsValue) (hs : SortedKeys acc.field_types) :
    SortedKeys (clientScanField acc fn v).field_types := by
  rw [clientScanField_field_types]
  exact sortedKeys_smapAlter _ _ _ hs

/-- Effect of one field scan on the tracked variant of that same field:
insert-if-absent semantics. -/
theorem clientScanField_find_self (acc : ClientInferAcc) (fn : String)
    (v : FsValue) (hs : SortedKeys acc.field_types) :
    smapFind? fn (clientScanField acc fn v).field_types =
      some ((smapFind? fn acc.field_types).getD (clientFieldTypeName v)) := by
  rw [clientScanField_field_types]
  exact smapFind?_alter_self fn _ acc.field_types hs

/-- Effect of one field scan on other fields: none. -/
theorem clientScanField_find_ne (acc : ClientInferAcc) (fn k : String)
    (v : FsValue) (hne : k ≠ fn) :
    smapFind? k (clientScanField acc fn v).field_types =
      smapFind? k acc.field_types := by
  rw [clientScanField_field_types]
  exact smapFind?_alter_ne k fn _ hne acc.field_types

/-- `clientScanDoc` preserves the sorted-key invariant. -/
theorem clientScanDoc_sorted (field : String) :
    ∀ (fields : List (String × FsValue)) (acc : ClientInferAcc),
      SortedKeys acc.field_types →
      SortedKeys (clientScanDoc acc fields).field_types
  | [], acc, hs => hs
  | (n, v) :: restf, acc, hs => by
      rw [show clientScanDoc acc ((n, v) :: restf) =
            clientScanDoc (clientScanField acc n v) restf by
          simp [clientScanDoc]]
      exact clientScanDoc_sorted field restf _ (clientScanField_sorted acc n v hs)

/-- Across one document, the tracked variant of a field is the previous
one, or else the variant of this document's occurrence of the field. -/
theorem clientScanDoc_find (field : String) :
    ∀ (fields : List (String × FsValue)) (acc : ClientInferAcc),
      SortedKeys acc.field_types →
      smapFind? field (clientScanDoc acc fields).field_types =
        (match smapFind? field acc.field_types with
         | some t => some t
         | none => (lookupField fields field).map clientFieldTypeName)
  | [], acc, _ => by
      cases hfa : smapFind? field acc.field_types <;>
        simp [clientScanDoc, hfa, lookupField]
  | (n, v) :: restf, acc, hs => by
      rw [show clientScanDoc acc ((n, v) :: restf) =
            clientScanDoc (clientScanField acc n v) restf by
          simp [clientScanDoc]]
      rw [clientScanDoc_find field restf _ (clientScanField_sorted acc n v hs)]
      by_cases hn : field = n
      · subst hn
        rw [clientScanField_find_self acc field v hs]
        cases hfa : smapFind? field acc.field_types with
        | none => simp [hfa, lookupField]
        | some t => simp [hfa, lookupField]
      · rw [clientScanField_find_ne acc n field v hn]
        cases hfa : smapFind? field acc.field_types with
        | none =>
            simp only [hfa]
            rw [show lookupField ((n, v) :: restf) field =
                  lookupField restf field by
                simp [lookupField, List.find?, hn, Ne.symm hn]]
        | some t => simp [hfa]

/-- Folding a document list keeps absorbing the first tracked variant. -/
theorem firstSeenVariant_absorb (field : String) (t : String) :
    ∀ docs : List (List (String × FsValue)),
      docs.foldl (fun acc fields =>
        match acc with
        | some u => some u
        | none => (lookupField fields field).map clientFieldTypeName)
        (some t) = some t
  | [] => rfl
  | _ :: rest => firstSeenVariant_absorb field t rest

/-- Unfolding `firstSeenVariant` over a cons. -/
theorem firstSeenVariant_cons (field : String)
    (d : List (String × FsValue)) (rest : List (List (String × FsValue))) :
    firstSeenVariant (d :: rest) field =
      (match (lookupField d field).map clientFieldTypeName with
       | some t => some t
       | none => firstSeenVariant rest field) := by
  unfold firstSeenVariant
  rw [List.foldl_cons]
  cases hl : (lookupField d field).map clientFieldTypeName with
  | none => rfl
  | some t => simpa [hl] using firstSeenVariant_absorb field t rest

/-- Over the whole sample, the tracked variant of a field is the previous
one or else the first seen occurrence. -/
theorem inferAcc_find_first_seen (field : String) :
    ∀ (docs : List (List (String × FsValue))) (acc : ClientInferAcc),
      SortedKeys acc.field_types →
      smapFind? field (docs.foldl clientScanDoc acc).field_types =
        (match smapFind? field acc.field_types with
         | some t => some t
         | none => firstSeenVariant docs field)
  | [], acc, _ => by
      cases hfa : smapFind? field acc.field_types <;>
        simp [hfa, firstSeenVariant]
  | d :: rest, acc, hs => by
      rw [List.foldl_cons]
      rw [inferAcc_find_first_seen field rest _ (clientScanDoc_sorted field d acc hs)]
      rw [clientScanDoc_find field d acc hs]
      rw [firstSeenVariant_cons]
      cases hfa : smapFind? field acc.field_types with
      | some t => rfl
      | none =>
          cases hl : (lookupField d field).map clientFieldTypeName <;> rfl

/-- Key-preserving maps commute with lookup. -/
theorem smapFind?_map {α β : Type} (g : String → α → β) (k : String) :
    ∀ l : List (String × α),
      smapFind? k (l.map (fun p => (p.1, g p.1 p.2))) =
        (smapFind? k l).map (g k)
  | [] => rfl
  | (k', v) :: rest => by
      by_cases hk : k = k'
      · subst hk
        simp [smapFind?]
      · simp only [List.map_cons, smapFind?, if_neg hk]
        exact smapFind?_map g k rest

/-- C3 (amended): for every field of the sample, the scan's schema
inference (`FirestoreClient::InferSchema`) assigns the logical type of the
variant observed in the **first** document (in sample order) containing
the field — nulls included — rather than the majority variant; in
particular the result depends on which variant happens to appear first.
(Stated for fields whose first-seen variant is not `arrayValue`; array
fields additionally get a voted element type.) -/
theorem c3_first_seen_wins (docs : List (List (String × FsValue)))
    (field tn : String) (hfs : firstSeenVariant docs field = some tn)
    (harr : tn ≠ "arrayValue") :
    smapFind? field (inferSchemaClient docs) =
      some (firestoreTypeToDuckDB tn) := by
  unfold inferSchemaClient
  rw [smapFind?_map]
  have h0 : SortedKeys ({} : ClientInferAcc).field_types := List.Pairwise.nil
  rw [inferAcc_find_first_seen field docs {} h0]
  simp only [show smapFind? field ({} : ClientInferAcc).field_types = none from rfl]
  rw [hfs]
  simp [clientResolveType, harr]

/-- C3 amended witness: a one-document sample establishes its variant. -/
theorem c3_first_seen_wins_witness :
    smapFind? "age" (inferSchemaClient [[("age", .intNumV 30)]]) =
      some (firestoreTypeToDuckDB "integerValue") :=
  c3_first_seen_wins [[("age", .intNumV 30)]] "age" "integerValue" rfl
    (by decide)

/-! ## C2 — the outer limit does not bound the emitted rows -/

set_option maxRecDepth 100000 in
/-- C2: against a backend whose `runQuery` pages are always full
(1000 documents each), a scan bound with `limit 1500` emits 1500 rows in
its first executor invocation (two page fetches) — but the executor does
not then enter the finished state: the limit guard reads
`total_returned = global_state.current_index` (firestore_scanner.cpp:521),
an index that is reset to 0 at every page boundary, so a second invocation
finds `current_index = 500 < 1500`, fetches a third page and emits 1000
further rows, for 2500 rows in total — the scan neither stops at the limit
nor stops fetching once 1500 rows have been emitted. -/
theorem c2_limit_not_enforced :
    (driveScan (some 1500) c2oracle 1 c2init).2 = 1500 ∧
    (driveScan (some 1500) c2oracle 1 c2init).1.fetches = 2 ∧
    (driveScan (some 1500) c2oracle 1 c2init).1.current_index = 500 ∧
    (driveScan (some 1500) c2oracle 1 c2init).1.finished = false ∧
    (driveScan (some 1500) c2oracle 2 c2init).2 = 2500 ∧
    (driveScan (some 1500) c2oracle 2 c2init).1.fetches = 3 ∧
    (driveScan (some 1500) c2oracle 2 c2init).1.finished = false :=
  ⟨by decide, by decide, by decide, by decide, by decide, by decide,
   by decide⟩

end FireDuck
